import Mathlib

/-!
Verification development for the room coordination and message-relay server
(src/server.js).  The server state is embedded shallowly: JavaScript `Map`
objects become association lists that preserve insertion order, socket.io
socket state (the mutable `socket.roomId` property and the set of socket.io
rooms a socket has joined) becomes an explicit per-session record, and each
socket event handler becomes a pure function from server state to server
state plus emitted events and the callback reply.
-/

namespace SignRelay

/-- Association list keyed by strings; models a JavaScript `Map`
(insertion-ordered, unique keys maintained by the invariants below). -/
def lookupA {β : Type} : List (String × β) → String → Option β
  | [], _ => none
  | (k, v) :: t, q => if k = q then some v else lookupA t q

/-- Membership test; models `Map.prototype.has`. -/
def containsA {β : Type} (l : List (String × β)) (q : String) : Bool :=
  (lookupA l q).isSome

/-- Insertion or in-place update; models `Map.prototype.set` (an existing
key keeps its position, a new key is appended at the end). -/
def setA {β : Type} : List (String × β) → String → β → List (String × β)
  | [], q, v => [(q, v)]
  | (k, w) :: t, q, v => if k = q then (k, v) :: t else (k, w) :: setA t q v

/-- Removal; models `Map.prototype.delete` (removes the first entry with
the key, which is the only one under the no-duplicate-keys invariant). -/
def delA {β : Type} : List (String × β) → String → List (String × β)
  | [], _ => []
  | (k, w) :: t, q => if k = q then t else (k, w) :: delA t q

/-- Keys of an association list, in order. -/
def keysA {β : Type} (l : List (String × β)) : List String :=
  l.map Prod.fst

/-- No two entries share a key, as in a JavaScript `Map`. -/
def NoDupKeys {β : Type} (l : List (String × β)) : Prop :=
  (keysA l).Nodup

/-- Participant record stored in `room.users` (server.js lines 62-66 and
91-95): the session id, join time and last-activity time.  Timestamps are
model-clock values (`new Date()` in the source); every handler receives the
current clock value as an explicit argument. -/
structure Participant where
  id : String
  joinedAt : Nat
  lastActive : Nat
deriving DecidableEq

/-- Transcript message (server.js lines 114-119).  The `confidence` value is
caller-supplied and stored verbatim, never computed with, so it is modelled
opaquely as a string.  The `timestamp` is the server clock at receipt; the
source renders it with the runtime's `Date.prototype.toISOString`, which is
modelled as the clock value itself. -/
structure Message where
  userId : String
  text : String
  confidence : String
  timestamp : Nat
deriving DecidableEq

/-- Room record (server.js lines 60-69). -/
structure Room where
  id : String
  users : List (String × Participant)
  createdAt : Nat
  messages : List Message
deriving DecidableEq

/-- Per-socket state maintained by the transport layer and the handlers:
`roomId` is the mutable `socket.roomId` property (server.js lines 72 and 96),
`ioRooms` is the set of socket.io rooms the socket has joined via
`socket.join` (it leaves one with `socket.leave` and leaves all of them when
the connection drops), and `connected` records whether the transport
connection is still live (socket ids are never reused, so a disconnected
session stays in the list as a tombstone). -/
structure SessionState where
  roomId : Option String
  ioRooms : List String
  connected : Bool
deriving DecidableEq

/-- Whole-server state: the global `rooms` registry (server.js line 39) plus
the per-socket transport state. -/
structure ServerState where
  rooms : List (String × Room)
  sessions : List (String × SessionState)
deriving DecidableEq

/-- Events emitted to other sockets.  `targets` is the set of session ids the
event is delivered to, computed from socket.io room membership exactly as
`socket.to(roomId).emit(...)` does: every connected socket that has joined
the socket.io room, except the sender. -/
inductive Event where
  | userJoined (targets : List String) (userId : String) (userCount : Nat)
  | userLeft (targets : List String) (userId : String) (userCount : Nat)
  | receiveTranscript (targets : List String) (message : Message)
deriving DecidableEq

/-- Reply to a `createRoom` callback (server.js line 73). -/
structure CreateReply where
  success : Bool
  roomId : String
deriving DecidableEq

/-- Reply to a `joinRoom` callback (server.js lines 83, 87, 97-101). -/
inductive JoinReply where
  | notFound
  | full
  | ok (userCount : Nat) (messages : List Message)
deriving DecidableEq

/-- Output of one handler invocation: the new server state, the events the
handler emitted to other sockets, and the callback reply (`none` when the
event did not come from a live connected socket, in which case the handler
never runs). -/
structure HandlerOut (ρ : Type) where
  state : ServerState
  events : List Event
  reply : ρ
deriving DecidableEq

/-- Model of `uuidv4().substring(0, 6)` (server.js line 59): the first six
characters of the generated token. -/
def substr6 (u : String) : String :=
  ⟨u.data.take 6⟩

/-- Model of `Array.prototype.slice(-n)`: the last at-most-`n` elements, in
order (server.js line 100 with n = 50). -/
def lastN {α : Type} (l : List α) (n : Nat) : List α :=
  l.drop (l.length - n)

/-- Model of the transcript append (server.js lines 120-121): `push` the
message, then `shift` one message off the front if the length exceeds 100. -/
def pushTrim (msgs : List Message) (m : Message) : List Message :=
  let msgs2 := msgs ++ [m]
  if msgs2.length > 100 then msgs2.tail else msgs2

/-- Model of `socket.join(roomId)`: socket.io room membership is a set, so
joining is idempotent. -/
def socketJoin (l : List String) (rid : String) : List String :=
  if rid ∈ l then l else rid :: l

/-- Recipients of `socket.to(rid).emit(...)`: every connected socket that is
in the socket.io room `rid`, except the sender. -/
def broadcastTargets (s : ServerState) (rid sender : String) : List String :=
  (s.sessions.filter
    (fun p => decide (p.2.connected = true ∧ rid ∈ p.2.ioRooms ∧ p.1 ≠ sender))).map Prod.fst

/-- Transport-level connection arrival (`io.on connection`): registers a
fresh socket with no room binding.  Socket ids are unique per connection and
never reused, so an id already seen (live or tombstoned) is left alone. -/
def connect (s : ServerState) (sid : String) : ServerState :=
  if containsA s.sessions sid then s
  else { s with sessions := s.sessions ++ [(sid, ⟨none, [], true⟩)] }

/-- The `createRoom` handler (server.js lines 57-77): generate the id from
the uuid, create the room with the requester as sole participant, register
it (a colliding id silently overwrites, as `Map.set` does), join the
socket.io room, bind `socket.roomId`, reply with success. -/
def createRoom (s : ServerState) (sid uuid : String) (now : Nat) :
    HandlerOut (Option CreateReply) :=
  match lookupA s.sessions sid with
  | some st =>
    if st.connected then
      let roomId := substr6 uuid
      let room : Room := ⟨roomId, [(sid, ⟨sid, now, now⟩)], now, []⟩
      let st2 := { st with roomId := some roomId, ioRooms := socketJoin st.ioRooms roomId }
      ⟨⟨setA s.rooms roomId room, setA s.sessions sid st2⟩, [], some ⟨true, roomId⟩⟩
    else ⟨s, [], none⟩
  | none => ⟨s, [], none⟩

/-- The `joinRoom` handler (server.js lines 79-109): missing room and full
room (10 or more users) fail without mutating anything; otherwise the socket
joins the socket.io room, is inserted into `room.users` (`Map.set`, so a
rejoin overwrites in place), `socket.roomId` is rebound, the callback gets
the post-insertion count and the last 50 messages, and `userJoined` goes to
the other sockets in the room. -/
def joinRoom (s : ServerState) (sid roomId : String) (now : Nat) :
    HandlerOut (Option JoinReply) :=
  match lookupA s.sessions sid with
  | some st =>
    if st.connected then
      match lookupA s.rooms roomId with
      | none => ⟨s, [], some JoinReply.notFound⟩
      | some room =>
        if room.users.length ≥ 10 then ⟨s, [], some JoinReply.full⟩
        else
          let users2 := setA room.users sid ⟨sid, now, now⟩
          let room2 := { room with users := users2 }
          let st2 := { st with roomId := some roomId, ioRooms := socketJoin st.ioRooms roomId }
          let s2 : ServerState := ⟨setA s.rooms roomId room2, setA s.sessions sid st2⟩
          ⟨s2, [Event.userJoined (broadcastTargets s2 roomId sid) sid users2.length],
            some (JoinReply.ok users2.length (lastN room.messages 50))⟩
    else ⟨s, [], none⟩
  | none => ⟨s, [], none⟩

/-- The `sendTranscript` handler (server.js lines 111-125): if the named room
exists and the sender is one of its users, build the message with a
server-assigned timestamp, append it with the 100-entry trim, refresh the
sender's `lastActive`, and broadcast `receiveTranscript` to the other
sockets in the room; otherwise do nothing at all. -/
def sendTranscript (s : ServerState) (sid roomId text confidence : String) (now : Nat) :
    HandlerOut Unit :=
  match lookupA s.sessions sid with
  | some st =>
    if st.connected then
      match lookupA s.rooms roomId with
      | some room =>
        match lookupA room.users sid with
        | some part =>
          let message : Message := ⟨sid, text, confidence, now⟩
          let room2 := { room with
            messages := pushTrim room.messages message,
            users := setA room.users sid { part with lastActive := now } }
          ⟨⟨setA s.rooms roomId room2, s.sessions⟩,
            [Event.receiveTranscript (broadcastTargets s roomId sid) message], ()⟩
        | none => ⟨s, [], ()⟩
      | none => ⟨s, [], ()⟩
    else ⟨s, [], ()⟩
  | none => ⟨s, [], ()⟩

/-- The `leaveRoom` handler (server.js lines 144-158): if the room exists and
the socket is a member, remove it, leave the socket.io room, delete the room
if it became empty and otherwise notify the remaining sockets with the
updated count.  Note the source does not clear `socket.roomId` here. -/
def leaveRoom (s : ServerState) (sid roomId : String) : HandlerOut Unit :=
  match lookupA s.sessions sid with
  | some st =>
    if st.connected then
      match lookupA s.rooms roomId with
      | some room =>
        match lookupA room.users sid with
        | some _ =>
          let users2 := delA room.users sid
          let st2 := { st with ioRooms := st.ioRooms.filter (fun r => decide (r ≠ roomId)) }
          let sessions2 := setA s.sessions sid st2
          if users2.length = 0 then
            ⟨⟨delA s.rooms roomId, sessions2⟩, [], ()⟩
          else
            ⟨⟨setA s.rooms roomId { room with users := users2 }, sessions2⟩,
              [Event.userLeft (broadcastTargets ⟨s.rooms, sessions2⟩ roomId sid) sid
                users2.length], ()⟩
        | none => ⟨s, [], ()⟩
      | none => ⟨s, [], ()⟩
    else ⟨s, [], ()⟩
  | none => ⟨s, [], ()⟩

/-- The `disconnect` handler plus the transport-level teardown (server.js
lines 127-142): if `socket.roomId` is bound and the room exists, delete the
socket from its users, delete the room if it became empty and otherwise emit
`userLeft`; then the transport removes the socket from all socket.io rooms
and the session becomes a tombstone.  Users recorded in rooms other than the
bound one are NOT removed. -/
def disconnect (s : ServerState) (sid : String) : HandlerOut Unit :=
  match lookupA s.sessions sid with
  | some st =>
    if st.connected then
      let st2 := { st with connected := false, ioRooms := [] }
      let sessions2 := setA s.sessions sid st2
      match st.roomId with
      | some roomId =>
        match lookupA s.rooms roomId with
        | some room =>
          let users2 := delA room.users sid
          if users2.length = 0 then
            ⟨⟨delA s.rooms roomId, sessions2⟩, [], ()⟩
          else
            ⟨⟨setA s.rooms roomId { room with users := users2 }, sessions2⟩,
              [Event.userLeft (broadcastTargets s roomId sid) sid users2.length], ()⟩
        | none => ⟨⟨s.rooms, sessions2⟩, [], ()⟩
      | none => ⟨⟨s.rooms, sessions2⟩, [], ()⟩
    else ⟨s, [], ()⟩
  | none => ⟨s, [], ()⟩

/-- One inbound transport event, with all server-nondeterministic inputs
(generated uuid, current clock) made explicit. -/
inductive Op where
  | connect (sid : String)
  | createRoom (sid uuid : String) (now : Nat)
  | joinRoom (sid roomId : String) (now : Nat)
  | sendTranscript (sid roomId text confidence : String) (now : Nat)
  | leaveRoom (sid roomId : String)
  | disconnect (sid : String)
deriving DecidableEq

/-- State transition of one operation (events and replies dropped). -/
def step (s : ServerState) (op : Op) : ServerState :=
  match op with
  | Op.connect sid => connect s sid
  | Op.createRoom sid uuid now => (createRoom s sid uuid now).state
  | Op.joinRoom sid roomId now => (joinRoom s sid roomId now).state
  | Op.sendTranscript sid roomId text confidence now =>
      (sendTranscript s sid roomId text confidence now).state
  | Op.leaveRoom sid roomId => (leaveRoom s sid roomId).state
  | Op.disconnect sid => (disconnect s sid).state

/-- Run a sequence of operations. -/
def run (s : ServerState) (ops : List Op) : ServerState :=
  ops.foldl step s

/-- The server starts with no rooms and no sockets. -/
def initState : ServerState :=
  ⟨[], []⟩

/-- Number of participants the registry currently records for a room; 0 when
the room is absent. -/
def roomCount (s : ServerState) (rid : String) : Nat :=
  match lookupA s.rooms rid with
  | some room => room.users.length
  | none => 0

/-- Whether the registry records session `sid` as a participant of room
`rid`; this is exactly the guard `room && room.users.has(socket.id)` of the
`sendTranscript` handler (server.js line 113). -/
def memberOf (s : ServerState) (rid sid : String) : Bool :=
  match lookupA s.rooms rid with
  | some room => containsA room.users sid
  | none => false

/-- Reachability invariant of the server state: registry keys, session keys
and per-room user keys are duplicate-free; no registered room is empty, over
capacity, or over the transcript bound; every recorded participant has a
session record; and every still-connected participant of a registered room
is in that room's socket.io room. -/
structure Inv (s : ServerState) : Prop where
  roomsNodup : NoDupKeys s.rooms
  sessionsNodup : NoDupKeys s.sessions
  usersNodup : ∀ p ∈ s.rooms, NoDupKeys p.2.users
  usersNonempty : ∀ p ∈ s.rooms, p.2.users ≠ []
  usersCap : ∀ p ∈ s.rooms, p.2.users.length ≤ 10
  msgsBound : ∀ p ∈ s.rooms, p.2.messages.length ≤ 100
  memberSession : ∀ p ∈ s.rooms, ∀ q ∈ p.2.users, containsA s.sessions q.1 = true
  memberJoined : ∀ p ∈ s.rooms, ∀ q ∈ p.2.users, ∀ st,
      lookupA s.sessions q.1 = some st → st.connected = true → p.1 ∈ st.ioRooms

/-- Message built by the `sendTranscript` handler from one
(text, confidence, clock) input triple. -/
def mkMessage (sid : String) (it : String × String × Nat) : Message :=
  ⟨sid, it.1, it.2.1, it.2.2⟩

/-- Sequence of `sendTranscript` operations by one session into one room,
one per (text, confidence, clock) triple. -/
def sendSeq (sid rid : String) (items : List (String × String × Nat)) : List Op :=
  items.map (fun it => Op.sendTranscript sid rid it.1 it.2.1 it.2.2)

/-- Whether a `joinRoom` by `sid` would actually enlarge room `rid`: the
handler succeeds and the session is not already a participant. -/
def effJoin (s : ServerState) (sid rid : String) : Bool :=
  match lookupA s.sessions sid, lookupA s.rooms rid with
  | some st, some room =>
      st.connected && decide (room.users.length < 10) && !(containsA room.users sid)
  | _, _ => false

/-- Whether a `leaveRoom` by `sid` actually removes a participant from
`rid`. -/
def effLeave (s : ServerState) (sid rid : String) : Bool :=
  match lookupA s.sessions sid, lookupA s.rooms rid with
  | some st, some room => st.connected && containsA room.users sid
  | _, _ => false

/-- Signed contribution of one operation to the participant count of room
`rid`. -/
def opDelta (s : ServerState) (rid : String) : Op → Int
  | Op.joinRoom sid r _ => if r = rid then (if effJoin s sid rid then 1 else 0) else 0
  | Op.leaveRoom sid r => if r = rid then (if effLeave s sid rid then -1 else 0) else 0
  | _ => 0

/-- Net signed effect of a sequence of operations on the participant count
of room `rid`. -/
def netEff (s : ServerState) (rid : String) : List Op → Int
  | [] => 0
  | op :: ops => opDelta s rid op + netEff (step s op) rid ops

/-- Whether an operation is a join or a leave aimed at room `rid`. -/
def onRoom (rid : String) : Op → Bool
  | Op.joinRoom _ r _ => decide (r = rid)
  | Op.leaveRoom _ r => decide (r = rid)
  | _ => false

/-- Count of successful joins in a sequence, following the specification's
words (the number of joins whose callback reports success): this counts a
rejoin by a session already in the room, which the handler accepts. -/
def specSuccessfulJoins (s : ServerState) (rid : String) : List Op → Nat
  | [] => 0
  | op :: ops =>
    (match op with
      | Op.joinRoom sid r now =>
        if r = rid then
          match (joinRoom s sid r now).reply with
          | some (JoinReply.ok _ _) => 1
          | _ => 0
        else 0
      | _ => 0) + specSuccessfulJoins (step s op) rid ops

/-- Count of effective leaves in a sequence, following the specification's
words: `leaveRoom` operations on `rid` that remove a present member. -/
def specEffectiveLeaves (s : ServerState) (rid : String) : List Op → Nat
  | [] => 0
  | op :: ops =>
    (match op with
      | Op.leaveRoom sid r =>
        if r = rid then (if effLeave s sid r then 1 else 0) else 0
      | _ => 0) + specEffectiveLeaves (step s op) rid ops

/-- Trace: one session connects and creates room aaaaaa. -/
def traceOneRoom : List Op :=
  [Op.connect "A", Op.createRoom "A" "aaaaaa" 0]

/-- Trace: A creates room aaaaaa, B creates room bbbbbb, A joins bbbbbb while
still recorded as a participant of aaaaaa, then A disconnects.  The
disconnect only cleans up the room A was bound to (bbbbbb), leaving A
recorded in aaaaaa. -/
def traceGhost : List Op :=
  [Op.connect "A", Op.createRoom "A" "aaaaaa" 0, Op.connect "B",
   Op.createRoom "B" "bbbbbb" 1, Op.joinRoom "A" "bbbbbb" 2, Op.disconnect "A"]

/-- Trace `traceGhost` followed by a fresh session C connecting; room aaaaaa
still records the disconnected session A as its sole participant. -/
def traceGhostJoin : List Op :=
  traceGhost ++ [Op.connect "C"]

/-- Trace: A creates aaaaaa, B joins aaaaaa, A creates cccccc (rebinding
itself while still recorded in aaaaaa), then A disconnects; room aaaaaa is
left with the live member B and the disconnected ghost A. -/
def traceGhostSend : List Op :=
  [Op.connect "A", Op.createRoom "A" "aaaaaa" 0, Op.connect "B",
   Op.joinRoom "B" "aaaaaa" 1, Op.createRoom "A" "cccccc" 2, Op.disconnect "A"]

/-- Trace: nine distinct sessions populate room aaaaaa. -/
def traceNine : List Op :=
  [Op.connect "s1", Op.createRoom "s1" "aaaaaa" 0,
   Op.connect "s2", Op.joinRoom "s2" "aaaaaa" 0,
   Op.connect "s3", Op.joinRoom "s3" "aaaaaa" 0,
   Op.connect "s4", Op.joinRoom "s4" "aaaaaa" 0,
   Op.connect "s5", Op.joinRoom "s5" "aaaaaa" 0,
   Op.connect "s6", Op.joinRoom "s6" "aaaaaa" 0,
   Op.connect "s7", Op.joinRoom "s7" "aaaaaa" 0,
   Op.connect "s8", Op.joinRoom "s8" "aaaaaa" 0,
   Op.connect "s9", Op.joinRoom "s9" "aaaaaa" 0]

theorem lookupA_setA_self {β : Type} (l : List (String × β)) (q : String) (v : β) :
    lookupA (setA l q v) q = some v := by
  induction l with
  | nil => simp [setA, lookupA]
  | cons hd t ih =>
    obtain ⟨k, w⟩ := hd
    by_cases hk : k = q
    · simp [setA, hk, lookupA]
    · simp [setA, hk, lookupA, ih]

theorem lookupA_setA_ne {β : Type} (l : List (String × β)) (q r : String) (v : β)
    (h : r ≠ q) : lookupA (setA l q v) r = lookupA l r := by
  induction l with
  | nil => simp [setA, lookupA, Ne.symm h]
  | cons hd t ih =>
    obtain ⟨k, w⟩ := hd
    by_cases hk : k = q
    · subst hk
      simp [setA, lookupA, Ne.symm h]
    · simp [setA, hk, lookupA, ih]

theorem lookupA_delA_ne {β : Type} (l : List (String × β)) (q r : String)
    (h : r ≠ q) : lookupA (delA l q) r = lookupA l r := by
  induction l with
  | nil => simp [delA]
  | cons hd t ih =>
    obtain ⟨k, w⟩ := hd
    by_cases hk : k = q
    · subst hk
      simp [delA, lookupA, Ne.symm h]
    · simp [delA, hk, lookupA, ih]

theorem lookupA_some_mem {β : Type} {l : List (String × β)} {q : String} {v : β}
    (h : lookupA l q = some v) : (q, v) ∈ l := by
  induction l with
  | nil => simp [lookupA] at h
  | cons hd t ih =>
    obtain ⟨k, w⟩ := hd
    by_cases hk : k = q
    · subst hk
      simp [lookupA] at h
      simp [h]
    · simp [lookupA, hk] at h
      exact List.mem_cons_of_mem _ (ih h)

theorem mem_keysA_of_lookupA {β : Type} {l : List (String × β)} {q : String} {v : β}
    (h : lookupA l q = some v) : q ∈ keysA l := by
  have := lookupA_some_mem h
  exact List.mem_map.2 ⟨(q, v), this, rfl⟩

theorem keysA_cons {β : Type} (k : String) (w : β) (t : List (String × β)) :
    keysA ((k, w) :: t) = k :: keysA t := rfl

theorem lookupA_eq_none_of_not_mem_keysA {β : Type} {l : List (String × β)} {q : String}
    (h : q ∉ keysA l) : lookupA l q = none := by
  induction l with
  | nil => simp [lookupA]
  | cons hd t ih =>
    obtain ⟨k, w⟩ := hd
    rw [keysA_cons] at h
    simp only [List.mem_cons] at h
    push_neg at h
    simp [lookupA, Ne.symm h.1, ih h.2]

theorem lookupA_delA_self {β : Type} {l : List (String × β)} (hnd : NoDupKeys l)
    (q : String) : lookupA (delA l q) q = none := by
  induction l with
  | nil => simp [delA, lookupA]
  | cons hd t ih =>
    obtain ⟨k, w⟩ := hd
    rw [NoDupKeys, keysA_cons, List.nodup_cons] at hnd
    by_cases hk : k = q
    · subst hk
      simpa [delA] using lookupA_eq_none_of_not_mem_keysA hnd.1
    · simp [delA, hk, lookupA, ih hnd.2]

theorem length_setA {β : Type} (l : List (String × β)) (q : String) (v : β) :
    (setA l q v).length = if containsA l q then l.length else l.length + 1 := by
  induction l with
  | nil => simp [setA, containsA, lookupA]
  | cons hd t ih =>
    obtain ⟨k, w⟩ := hd
    by_cases hk : k = q
    · simp [setA, hk, containsA, lookupA]
    · simp only [setA, hk, if_false, List.length_cons, ih, containsA, lookupA, if_neg hk]
      split <;> simp

theorem containsA_length_pos {β : Type} {l : List (String × β)} {q : String}
    (h : containsA l q = true) : 1 ≤ l.length := by
  cases l with
  | nil => simp [containsA, lookupA] at h
  | cons hd t => simp

theorem length_delA {β : Type} (l : List (String × β)) (q : String) :
    (delA l q).length = if containsA l q then l.length - 1 else l.length := by
  induction l with
  | nil => simp [delA, containsA, lookupA]
  | cons hd t ih =>
    obtain ⟨k, w⟩ := hd
    by_cases hk : k = q
    · simp [delA, hk, containsA, lookupA]
    · simp only [delA, hk, if_false, List.length_cons, ih, containsA, lookupA, if_neg hk]
      by_cases h2 : (lookupA t q).isSome = true
      · have hlen : 1 ≤ t.length := containsA_length_pos (q := q) (by simpa [containsA] using h2)
        simp only [h2, if_true]
        omega
      · simp [h2]

theorem mem_setA {β : Type} {l : List (String × β)} {q : String} {v : β}
    {p : String × β} (h : p ∈ setA l q v) : p = (q, v) ∨ p ∈ l := by
  induction l with
  | nil =>
    simp [setA] at h
    simp [h]
  | cons hd t ih =>
    obtain ⟨k, w⟩ := hd
    by_cases hk : k = q
    · subst hk
      simp [setA] at h
      rcases h with h | h
      · exact Or.inl (by simp [h])
      · exact Or.inr (List.mem_cons_of_mem _ h)
    · simp [setA, hk] at h
      rcases h with h | h
      · exact Or.inr (by simp [h])
      · rcases ih h with h2 | h2
        · exact Or.inl h2
        · exact Or.inr (List.mem_cons_of_mem _ h2)

theorem mem_delA {β : Type} {l : List (String × β)} {q : String}
    {p : String × β} (h : p ∈ delA l q) : p ∈ l := by
  induction l with
  | nil => simp [delA] at h
  | cons hd t ih =>
    obtain ⟨k, w⟩ := hd
    by_cases hk : k = q
    · subst hk
      simp [delA] at h
      exact List.mem_cons_of_mem _ h
    · simp [delA, hk] at h
      rcases h with h | h
      · simp [h]
      · exact List.mem_cons_of_mem _ (ih h)

theorem lookupA_isSome_of_mem_keysA {β : Type} {l : List (String × β)} {q : String}
    (h : q ∈ keysA l) : (lookupA l q).isSome = true := by
  induction l with
  | nil => simp [keysA] at h
  | cons hd t ih =>
    obtain ⟨k, w⟩ := hd
    rw [keysA_cons, List.mem_cons] at h
    by_cases hk : k = q
    · simp [lookupA, hk]
    · rcases h with h | h
      · exact absurd h.symm hk
      · simp [lookupA, hk, ih h]

theorem containsA_eq_false_iff {β : Type} (l : List (String × β)) (q : String) :
    containsA l q = false ↔ q ∉ keysA l := by
  constructor
  · intro h hmem
    have := lookupA_isSome_of_mem_keysA hmem
    rw [containsA] at h
    rw [h] at this
    cases this
  · intro h
    rw [containsA, lookupA_eq_none_of_not_mem_keysA h]
    rfl

theorem containsA_eq_true_iff {β : Type} (l : List (String × β)) (q : String) :
    containsA l q = true ↔ q ∈ keysA l := by
  rcases h : containsA l q with _ | _
  · simp [(containsA_eq_false_iff l q).1 h]
  · simp only [true_iff]
    rw [containsA] at h
    rcases h2 : lookupA l q with _ | v
    · rw [h2] at h
      cases h
    · exact mem_keysA_of_lookupA h2

theorem keysA_setA {β : Type} (l : List (String × β)) (q : String) (v : β) :
    keysA (setA l q v) = if containsA l q then keysA l else keysA l ++ [q] := by
  induction l with
  | nil => simp [setA, keysA, containsA, lookupA]
  | cons hd t ih =>
    obtain ⟨k, w⟩ := hd
    by_cases hk : k = q
    · simp [setA, hk, keysA, containsA, lookupA]
    · simp only [setA, if_neg hk, keysA_cons, ih, containsA, lookupA, if_neg hk]
      split <;> simp

theorem nodup_setA {β : Type} {l : List (String × β)} (hnd : NoDupKeys l)
    (q : String) (v : β) : NoDupKeys (setA l q v) := by
  rw [NoDupKeys] at hnd
  rw [NoDupKeys, keysA_setA]
  rcases h : containsA l q with _ | _
  · simp only [Bool.false_eq_true, if_false]
    have hq : q ∉ keysA l := (containsA_eq_false_iff l q).1 h
    refine hnd.append (List.nodup_singleton q) ?_
    intro a ha hb
    rw [List.mem_singleton] at hb
    subst hb
    exact hq ha
  · simpa using hnd

theorem delA_sublist {β : Type} (l : List (String × β)) (q : String) :
    (delA l q).Sublist l := by
  induction l with
  | nil => simp [delA]
  | cons hd t ih =>
    obtain ⟨k, w⟩ := hd
    by_cases hk : k = q
    · simp only [delA, if_pos hk]
      exact List.sublist_cons_self _ _
    · simp only [delA, if_neg hk]
      exact ih.cons₂ _

theorem nodup_delA {β : Type} {l : List (String × β)} (hnd : NoDupKeys l)
    (q : String) : NoDupKeys (delA l q) := by
  rw [NoDupKeys]
  exact ((delA_sublist l q).map Prod.fst).nodup hnd

theorem mem_setA_nodup {β : Type} {l : List (String × β)} {q : String} {v : β}
    {p : String × β} (hnd : NoDupKeys l) (h : p ∈ setA l q v) :
    p = (q, v) ∨ (p ∈ l ∧ p.1 ≠ q) := by
  induction l with
  | nil =>
    simp [setA] at h
    simp [h]
  | cons hd t ih =>
    obtain ⟨k, w⟩ := hd
    rw [NoDupKeys, keysA_cons, List.nodup_cons] at hnd
    by_cases hk : k = q
    · subst hk
      simp [setA] at h
      rcases h with h | h
      · exact Or.inl (by simp [h])
      · refine Or.inr ⟨List.mem_cons_of_mem _ h, ?_⟩
        intro hp
        exact hnd.1 (hp ▸ List.mem_map.2 ⟨p, h, rfl⟩)
    · simp only [setA, if_neg hk, List.mem_cons] at h
      rcases h with h | h
      · exact Or.inr ⟨by simp [h], by simp [h, hk]⟩
      · rcases ih hnd.2 h with h2 | h2
        · exact Or.inl h2
        · exact Or.inr ⟨List.mem_cons_of_mem _ h2.1, h2.2⟩

theorem mem_delA_nodup {β : Type} {l : List (String × β)} {q : String}
    {p : String × β} (hnd : NoDupKeys l) (h : p ∈ delA l q) :
    p ∈ l ∧ p.1 ≠ q := by
  induction l with
  | nil => simp [delA] at h
  | cons hd t ih =>
    obtain ⟨k, w⟩ := hd
    rw [NoDupKeys, keysA_cons, List.nodup_cons] at hnd
    by_cases hk : k = q
    · subst hk
      simp only [delA, if_pos rfl] at h
      refine ⟨List.mem_cons_of_mem _ h, ?_⟩
      intro hp
      exact hnd.1 (hp ▸ List.mem_map.2 ⟨p, h, rfl⟩)
    · simp only [delA, if_neg hk, List.mem_cons] at h
      rcases h with h | h
      · exact ⟨by simp [h], by simp [h, hk]⟩
      · rcases ih hnd.2 h with ⟨h1, h2⟩
        exact ⟨List.mem_cons_of_mem _ h1, h2⟩

theorem lookupA_append {β : Type} (l m : List (String × β)) (q : String) :
    lookupA (l ++ m) q = match lookupA l q with
      | some v => some v
      | none => lookupA m q := by
  induction l with
  | nil => simp [lookupA]
  | cons hd t ih =>
    obtain ⟨k, w⟩ := hd
    by_cases hk : k = q
    · simp [lookupA, hk]
    · simp [lookupA, hk, ih]

theorem lookupA_append_of_contains {β : Type} {l : List (String × β)} {q : String}
    (m : List (String × β)) (h : containsA l q = true) :
    lookupA (l ++ m) q = lookupA l q := by
  rw [lookupA_append]
  rw [containsA] at h
  rcases h2 : lookupA l q with _ | v
  · rw [h2] at h
    cases h
  · rfl

theorem nodup_append_fresh {β : Type} {l : List (String × β)} {q : String} (v : β)
    (hnd : NoDupKeys l) (h : containsA l q = false) :
    NoDupKeys (l ++ [(q, v)]) := by
  have hq : q ∉ keysA l := (containsA_eq_false_iff l q).1 h
  rw [NoDupKeys] at hnd
  rw [NoDupKeys, keysA, List.map_append]
  simp only [List.map_cons, List.map_nil]
  refine hnd.append (List.nodup_singleton q) ?_
  intro a ha hb
  rw [List.mem_singleton] at hb
  subst hb
  exact hq ha

theorem setA_ne_nil {β : Type} (l : List (String × β)) (q : String) (v : β) :
    setA l q v ≠ [] := by
  cases l with
  | nil => simp [setA]
  | cons hd t =>
    obtain ⟨k, w⟩ := hd
    by_cases hk : k = q <;> simp [setA, hk]

theorem containsA_setA_self {β : Type} (l : List (String × β)) (q : String) (v : β) :
    containsA (setA l q v) q = true := by
  unfold containsA
  rw [lookupA_setA_self]
  rfl

theorem containsA_setA_of_containsA {β : Type} {l : List (String × β)} {r : String}
    (q : String) (v : β) (h : containsA l r = true) :
    containsA (setA l q v) r = true := by
  by_cases hr : r = q
  · subst hr
    exact containsA_setA_self l r v
  · unfold containsA
    rw [lookupA_setA_ne _ _ _ _ hr]
    exact h

theorem mem_socketJoin_self (l : List String) (rid : String) :
    rid ∈ socketJoin l rid := by
  unfold socketJoin
  split
  · assumption
  · exact List.mem_cons_self _ _

theorem mem_socketJoin_of_mem {l : List String} {a : String} (rid : String)
    (h : a ∈ l) : a ∈ socketJoin l rid := by
  unfold socketJoin
  split
  · exact h
  · exact List.mem_cons_of_mem _ h

theorem pushTrim_eq (msgs : List Message) (m : Message) :
    pushTrim msgs m =
      if (msgs ++ [m]).length > 100 then (msgs ++ [m]).tail else msgs ++ [m] := rfl

theorem length_pushTrim_le {msgs : List Message} (m : Message)
    (h : msgs.length ≤ 100) : (pushTrim msgs m).length ≤ 100 := by
  rw [pushTrim_eq]
  by_cases hc : (msgs ++ [m]).length > 100
  · rw [if_pos hc, List.length_tail]
    simp only [List.length_append, List.length_cons, List.length_nil]
    omega
  · rw [if_neg hc]
    simp only [List.length_append, List.length_cons, List.length_nil] at hc ⊢
    omega

theorem length_delA_le {β : Type} (l : List (String × β)) (q : String) :
    (delA l q).length ≤ l.length := by
  rw [length_delA]
  split <;> omega

theorem ne_nil_of_length_ne_zero {α : Type} {l : List α} (h : l.length ≠ 0) :
    l ≠ [] := by
  intro hl
  exact h (hl ▸ rfl)

theorem containsA_of_lookupA_some {β : Type} {l : List (String × β)} {q : String}
    {v : β} (h : lookupA l q = some v) : containsA l q = true := by
  rw [containsA, h]
  rfl

theorem createRoom_eq {s : ServerState} {sid : String} {st : SessionState}
    (uuid : String) (now : Nat) (hst : lookupA s.sessions sid = some st)
    (hc : st.connected = true) :
    createRoom s sid uuid now =
      ⟨⟨setA s.rooms (substr6 uuid) ⟨substr6 uuid, [(sid, ⟨sid, now, now⟩)], now, []⟩,
        setA s.sessions sid
          { st with roomId := some (substr6 uuid),
                    ioRooms := socketJoin st.ioRooms (substr6 uuid) }⟩,
        [], some ⟨true, substr6 uuid⟩⟩ := by
  unfold createRoom
  rw [hst]
  simp [hc]

theorem joinRoom_eq_notFound {s : ServerState} {sid roomId : String} {st : SessionState}
    (now : Nat) (hst : lookupA s.sessions sid = some st) (hc : st.connected = true)
    (hroom : lookupA s.rooms roomId = none) :
    joinRoom s sid roomId now = ⟨s, [], some JoinReply.notFound⟩ := by
  unfold joinRoom
  rw [hst]
  simp [hc, hroom]

theorem joinRoom_eq_full {s : ServerState} {sid roomId : String} {st : SessionState}
    {room : Room} (now : Nat) (hst : lookupA s.sessions sid = some st)
    (hc : st.connected = true) (hroom : lookupA s.rooms roomId = some room)
    (hcap : room.users.length ≥ 10) :
    joinRoom s sid roomId now = ⟨s, [], some JoinReply.full⟩ := by
  unfold joinRoom
  rw [hst]
  simp [hc, hroom, hcap]

theorem joinRoom_eq_ok {s : ServerState} {sid roomId : String} {st : SessionState}
    {room : Room} (now : Nat) (hst : lookupA s.sessions sid = some st)
    (hc : st.connected = true) (hroom : lookupA s.rooms roomId = some room)
    (hcap : ¬room.users.length ≥ 10) :
    joinRoom s sid roomId now =
      ⟨⟨setA s.rooms roomId { room with users := setA room.users sid ⟨sid, now, now⟩ },
        setA s.sessions sid
          { st with roomId := some roomId, ioRooms := socketJoin st.ioRooms roomId }⟩,
        [Event.userJoined
          (broadcastTargets
            ⟨setA s.rooms roomId { room with users := setA room.users sid ⟨sid, now, now⟩ },
              setA s.sessions sid
                { st with roomId := some roomId,
                          ioRooms := socketJoin st.ioRooms roomId }⟩ roomId sid)
          sid (setA room.users sid ⟨sid, now, now⟩).length],
        some (JoinReply.ok (setA room.users sid ⟨sid, now, now⟩).length
          (lastN room.messages 50))⟩ := by
  unfold joinRoom
  rw [hst]
  simp [hc, hroom, hcap]

theorem sendTranscript_eq_member {s : ServerState} {sid roomId : String}
    {st : SessionState} {room : Room} {part : Participant}
    (text confidence : String) (now : Nat)
    (hst : lookupA s.sessions sid = some st) (hc : st.connected = true)
    (hroom : lookupA s.rooms roomId = some room)
    (hpart : lookupA room.users sid = some part) :
    sendTranscript s sid roomId text confidence now =
      ⟨⟨setA s.rooms roomId
          { room with
              messages := pushTrim room.messages ⟨sid, text, confidence, now⟩,
              users := setA room.users sid { part with lastActive := now } },
        s.sessions⟩,
        [Event.receiveTranscript (broadcastTargets s roomId sid)
          ⟨sid, text, confidence, now⟩], ()⟩ := by
  unfold sendTranscript
  rw [hst]
  simp [hc, hroom, hpart]

theorem leaveRoom_eq_deleted {s : ServerState} {sid roomId : String}
    {st : SessionState} {room : Room} {part : Participant}
    (hst : lookupA s.sessions sid = some st) (hc : st.connected = true)
    (hroom : lookupA s.rooms roomId = some room)
    (hpart : lookupA room.users sid = some part)
    (hempty : (delA room.users sid).length = 0) :
    leaveRoom s sid roomId =
      ⟨⟨delA s.rooms roomId,
        setA s.sessions sid
          { st with ioRooms := st.ioRooms.filter (fun r => decide (r ≠ roomId)) }⟩,
        [], ()⟩ := by
  unfold leaveRoom
  rw [hst]
  simp [hc, hroom, hpart, hempty]

theorem leaveRoom_eq_kept {s : ServerState} {sid roomId : String}
    {st : SessionState} {room : Room} {part : Participant}
    (hst : lookupA s.sessions sid = some st) (hc : st.connected = true)
    (hroom : lookupA s.rooms roomId = some room)
    (hpart : lookupA room.users sid = some part)
    (hkeep : (delA room.users sid).length ≠ 0) :
    leaveRoom s sid roomId =
      ⟨⟨setA s.rooms roomId { room with users := delA room.users sid },
        setA s.sessions sid
          { st with ioRooms := st.ioRooms.filter (fun r => decide (r ≠ roomId)) }⟩,
        [Event.userLeft
          (broadcastTargets
            ⟨s.rooms,
              setA s.sessions sid
                { st with
                    ioRooms := st.ioRooms.filter (fun r => decide (r ≠ roomId)) }⟩
            roomId sid)
          sid (delA room.users sid).length], ()⟩ := by
  unfold leaveRoom
  rw [hst]
  simp [hc, hroom, hpart, hkeep]

theorem disconnect_eq_unbound {s : ServerState} {sid : String} {st : SessionState}
    (hst : lookupA s.sessions sid = some st) (hc : st.connected = true)
    (hb : st.roomId = none) :
    disconnect s sid =
      ⟨⟨s.rooms, setA s.sessions sid { st with connected := false, ioRooms := [] }⟩,
        [], ()⟩ := by
  unfold disconnect
  rw [hst]
  simp [hc, hb]

theorem disconnect_eq_stale {s : ServerState} {sid roomId : String} {st : SessionState}
    (hst : lookupA s.sessions sid = some st) (hc : st.connected = true)
    (hb : st.roomId = some roomId) (hroom : lookupA s.rooms roomId = none) :
    disconnect s sid =
      ⟨⟨s.rooms, setA s.sessions sid { st with connected := false, ioRooms := [] }⟩,
        [], ()⟩ := by
  unfold disconnect
  rw [hst]
  simp [hc, hb, hroom]

theorem disconnect_eq_deleted {s : ServerState} {sid roomId : String}
    {st : SessionState} {room : Room}
    (hst : lookupA s.sessions sid = some st) (hc : st.connected = true)
    (hb : st.roomId = some roomId) (hroom : lookupA s.rooms roomId = some room)
    (hempty : (delA room.users sid).length = 0) :
    disconnect s sid =
      ⟨⟨delA s.rooms roomId,
        setA s.sessions sid { st with connected := false, ioRooms := [] }⟩,
        [], ()⟩ := by
  unfold disconnect
  rw [hst]
  simp [hc, hb, hroom, hempty]

theorem disconnect_eq_kept {s : ServerState} {sid roomId : String}
    {st : SessionState} {room : Room}
    (hst : lookupA s.sessions sid = some st) (hc : st.connected = true)
    (hb : st.roomId = some roomId) (hroom : lookupA s.rooms roomId = some room)
    (hkeep : (delA room.users sid).length ≠ 0) :
    disconnect s sid =
      ⟨⟨setA s.rooms roomId { room with users := delA room.users sid },
        setA s.sessions sid { st with connected := false, ioRooms := [] }⟩,
        [Event.userLeft (broadcastTargets s roomId sid) sid
          (delA room.users sid).length], ()⟩ := by
  unfold disconnect
  rw [hst]
  simp [hc, hb, hroom, hkeep]

theorem inv_initState : Inv initState := by
  refine ⟨?_, ?_, ?_, ?_, ?_, ?_, ?_, ?_⟩ <;> simp [initState, NoDupKeys, keysA]

theorem inv_connect {s : ServerState} (h : Inv s) (sid : String) :
    Inv (connect s sid) := by
  unfold connect
  by_cases hc : containsA s.sessions sid = true
  · simpa [hc] using h
  · have hc2 : containsA s.sessions sid = false := by
      rcases h2 : containsA s.sessions sid with _ | _
      · rfl
      · exact absurd h2 hc
    simp only [hc2, Bool.false_eq_true, if_false]
    refine ⟨h.roomsNodup, nodup_append_fresh _ h.sessionsNodup hc2,
      h.usersNodup, h.usersNonempty, h.usersCap, h.msgsBound, ?_, ?_⟩
    · intro p hp q hq
      have hold := h.memberSession p hp q hq
      rw [containsA, lookupA_append_of_contains _ hold]
      exact hold
    · intro p hp q hq st hst hcst
      have hold := h.memberSession p hp q hq
      rw [lookupA_append_of_contains _ hold] at hst
      exact h.memberJoined p hp q hq st hst hcst

theorem eq_false_of_not_eq_true {b : Bool} (h : ¬b = true) : b = false := by
  cases b
  · rfl
  · exact absurd rfl h

theorem inv_createRoom {s : ServerState} (h : Inv s) (sid uuid : String) (now : Nat) :
    Inv (createRoom s sid uuid now).state := by
  cases hst : lookupA s.sessions sid with
  | none =>
    unfold createRoom
    rw [hst]
    exact h
  | some st =>
    by_cases hc : st.connected = true
    · rw [createRoom_eq uuid now hst hc]
      refine ⟨nodup_setA h.roomsNodup _ _, nodup_setA h.sessionsNodup _ _,
        ?_, ?_, ?_, ?_, ?_, ?_⟩
      · intro p hp
        rcases mem_setA_nodup h.roomsNodup hp with hp2 | hp2
        · subst hp2
          simp [NoDupKeys, keysA]
        · exact h.usersNodup p hp2.1
      · intro p hp
        rcases mem_setA_nodup h.roomsNodup hp with hp2 | hp2
        · subst hp2
          simp
        · exact h.usersNonempty p hp2.1
      · intro p hp
        rcases mem_setA_nodup h.roomsNodup hp with hp2 | hp2
        · subst hp2
          simp
        · exact h.usersCap p hp2.1
      · intro p hp
        rcases mem_setA_nodup h.roomsNodup hp with hp2 | hp2
        · subst hp2
          simp
        · exact h.msgsBound p hp2.1
      · intro p hp q hq
        rcases mem_setA_nodup h.roomsNodup hp with hp2 | hp2
        · subst hp2
          simp only [List.mem_singleton] at hq
          have hq1 : q.1 = sid := by rw [hq]
          rw [hq1]
          exact containsA_setA_self _ _ _
        · exact containsA_setA_of_containsA _ _ (h.memberSession p hp2.1 q hq)
      · intro p hp q hq st2 hst2 hcst2
        rcases mem_setA_nodup h.roomsNodup hp with hp2 | hp2
        · subst hp2
          simp only [List.mem_singleton] at hq
          have hq1 : q.1 = sid := by rw [hq]
          rw [hq1, lookupA_setA_self] at hst2
          injection hst2 with hst2
          rw [← hst2]
          exact mem_socketJoin_self _ _
        · by_cases hq1 : q.1 = sid
          · rw [hq1, lookupA_setA_self] at hst2
            injection hst2 with hst2
            rw [← hst2]
            exact mem_socketJoin_of_mem _
              (h.memberJoined p hp2.1 q hq st (hq1 ▸ hst) hc)
          · rw [lookupA_setA_ne _ _ _ _ hq1] at hst2
            exact h.memberJoined p hp2.1 q hq st2 hst2 hcst2
    · unfold createRoom
      rw [hst]
      simp only [eq_false_of_not_eq_true hc, Bool.false_eq_true, if_false]
      exact h

theorem inv_joinRoom {s : ServerState} (h : Inv s) (sid roomId : String) (now : Nat) :
    Inv (joinRoom s sid roomId now).state := by
  cases hst : lookupA s.sessions sid with
  | none =>
    unfold joinRoom
    rw [hst]
    exact h
  | some st =>
    by_cases hc : st.connected = true
    · cases hroom : lookupA s.rooms roomId with
      | none =>
        rw [joinRoom_eq_notFound now hst hc hroom]
        exact h
      | some room =>
        by_cases hcap : room.users.length ≥ 10
        · rw [joinRoom_eq_full now hst hc hroom hcap]
          exact h
        · rw [joinRoom_eq_ok now hst hc hroom hcap]
          have hmem : (roomId, room) ∈ s.rooms := lookupA_some_mem hroom
          have hund : NoDupKeys room.users := h.usersNodup (roomId, room) hmem
          refine ⟨nodup_setA h.roomsNodup _ _, nodup_setA h.sessionsNodup _ _,
            ?_, ?_, ?_, ?_, ?_, ?_⟩
          · intro p hp
            rcases mem_setA_nodup h.roomsNodup hp with hp2 | hp2
            · subst hp2
              exact nodup_setA hund _ _
            · exact h.usersNodup p hp2.1
          · intro p hp
            rcases mem_setA_nodup h.roomsNodup hp with hp2 | hp2
            · subst hp2
              exact setA_ne_nil _ _ _
            · exact h.usersNonempty p hp2.1
          · intro p hp
            rcases mem_setA_nodup h.roomsNodup hp with hp2 | hp2
            · subst hp2
              show (setA room.users sid ⟨sid, now, now⟩).length ≤ 10
              rw [length_setA]
              split
              · exact h.usersCap (roomId, room) hmem
              · push_neg at hcap
                omega
            · exact h.usersCap p hp2.1
          · intro p hp
            rcases mem_setA_nodup h.roomsNodup hp with hp2 | hp2
            · subst hp2
              exact h.msgsBound (roomId, room) hmem
            · exact h.msgsBound p hp2.1
          · intro p hp q hq
            rcases mem_setA_nodup h.roomsNodup hp with hp2 | hp2
            · subst hp2
              rcases mem_setA_nodup hund hq with hq2 | hq2
              · have hq1 : q.1 = sid := by rw [hq2]
                rw [hq1]
                exact containsA_setA_self _ _ _
              · exact containsA_setA_of_containsA _ _
                  (h.memberSession (roomId, room) hmem q hq2.1)
            · exact containsA_setA_of_containsA _ _ (h.memberSession p hp2.1 q hq)
          · intro p hp q hq st2 hst2 hcst2
            rcases mem_setA_nodup h.roomsNodup hp with hp2 | hp2
            · subst hp2
              rcases mem_setA_nodup hund hq with hq2 | hq2
              · have hq1 : q.1 = sid := by rw [hq2]
                rw [hq1, lookupA_setA_self] at hst2
                injection hst2 with hst2
                rw [← hst2]
                exact mem_socketJoin_self _ _
              · rw [lookupA_setA_ne _ _ _ _ hq2.2] at hst2
                exact h.memberJoined (roomId, room) hmem q hq2.1 st2 hst2 hcst2
            · by_cases hq1 : q.1 = sid
              · rw [hq1, lookupA_setA_self] at hst2
                injection hst2 with hst2
                rw [← hst2]
                exact mem_socketJoin_of_mem _
                  (h.memberJoined p hp2.1 q hq st (hq1 ▸ hst) hc)
              · rw [lookupA_setA_ne _ _ _ _ hq1] at hst2
                exact h.memberJoined p hp2.1 q hq st2 hst2 hcst2
    · unfold joinRoom
      rw [hst]
      simp only [eq_false_of_not_eq_true hc, Bool.false_eq_true, if_false]
      exact h

theorem inv_sendTranscript {s : ServerState} (h : Inv s)
    (sid roomId text confidence : String) (now : Nat) :
    Inv (sendTranscript s sid roomId text confidence now).state := by
  cases hst : lookupA s.sessions sid with
  | none =>
    unfold sendTranscript
    rw [hst]
    exact h
  | some st =>
    by_cases hc : st.connected = true
    · cases hroom : lookupA s.rooms roomId with
      | none =>
        unfold sendTranscript
        rw [hst]
        simp only [hc, if_true, hroom]
        exact h
      | some room =>
        cases hpart : lookupA room.users sid with
        | none =>
          unfold sendTranscript
          rw [hst]
          simp only [hc, if_true, hroom, hpart]
          exact h
        | some part =>
          rw [sendTranscript_eq_member text confidence now hst hc hroom hpart]
          have hmem : (roomId, room) ∈ s.rooms := lookupA_some_mem hroom
          have hund : NoDupKeys room.users := h.usersNodup (roomId, room) hmem
          have hqmem : (sid, part) ∈ room.users := lookupA_some_mem hpart
          refine ⟨nodup_setA h.roomsNodup _ _, h.sessionsNodup, ?_, ?_, ?_, ?_, ?_, ?_⟩
          · intro p hp
            rcases mem_setA_nodup h.roomsNodup hp with hp2 | hp2
            · subst hp2
              exact nodup_setA hund _ _
            · exact h.usersNodup p hp2.1
          · intro p hp
            rcases mem_setA_nodup h.roomsNodup hp with hp2 | hp2
            · subst hp2
              exact setA_ne_nil _ _ _
            · exact h.usersNonempty p hp2.1
          · intro p hp
            rcases mem_setA_nodup h.roomsNodup hp with hp2 | hp2
            · subst hp2
              show (setA room.users sid { part with lastActive := now }).length ≤ 10
              rw [length_setA, if_pos (containsA_of_lookupA_some hpart)]
              exact h.usersCap (roomId, room) hmem
            · exact h.usersCap p hp2.1
          · intro p hp
            rcases mem_setA_nodup h.roomsNodup hp with hp2 | hp2
            · subst hp2
              exact length_pushTrim_le _ (h.msgsBound (roomId, room) hmem)
            · exact h.msgsBound p hp2.1
          · intro p hp q hq
            rcases mem_setA_nodup h.roomsNodup hp with hp2 | hp2
            · subst hp2
              rcases mem_setA_nodup hund hq with hq2 | hq2
              · have hq1 : q.1 = sid := by rw [hq2]
                rw [hq1, containsA, hst]
                rfl
              · exact h.memberSession (roomId, room) hmem q hq2.1
            · exact h.memberSession p hp2.1 q hq
          · intro p hp q hq st2 hst2 hcst2
            rcases mem_setA_nodup h.roomsNodup hp with hp2 | hp2
            · subst hp2
              rcases mem_setA_nodup hund hq with hq2 | hq2
              · have hq1 : q.1 = sid := by rw [hq2]
                rw [hq1] at hst2
                exact h.memberJoined (roomId, room) hmem (sid, part) hqmem st2 hst2 hcst2
              · exact h.memberJoined (roomId, room) hmem q hq2.1 st2 hst2 hcst2
            · exact h.memberJoined p hp2.1 q hq st2 hst2 hcst2
    · unfold sendTranscript
      rw [hst]
      simp only [eq_false_of_not_eq_true hc, Bool.false_eq_true, if_false]
      exact h

theorem inv_leaveRoom {s : ServerState} (h : Inv s) (sid roomId : String) :
    Inv (leaveRoom s sid roomId).state := by
  cases hst : lookupA s.sessions sid with
  | none =>
    unfold leaveRoom
    rw [hst]
    exact h
  | some st =>
    by_cases hc : st.connected = true
    · cases hroom : lookupA s.rooms roomId with
      | none =>
        unfold leaveRoom
        rw [hst]
        simp only [hc, if_true, hroom]
        exact h
      | some room =>
        cases hpart : lookupA room.users sid with
        | none =>
          unfold leaveRoom
          rw [hst]
          simp only [hc, if_true, hroom, hpart]
          exact h
        | some part =>
          have hmem : (roomId, room) ∈ s.rooms := lookupA_some_mem hroom
          have hund : NoDupKeys room.users := h.usersNodup (roomId, room) hmem
          by_cases hempty : (delA room.users sid).length = 0
          · rw [leaveRoom_eq_deleted hst hc hroom hpart hempty]
            refine ⟨nodup_delA h.roomsNodup _, nodup_setA h.sessionsNodup _ _,
              ?_, ?_, ?_, ?_, ?_, ?_⟩
            · intro p hp
              exact h.usersNodup p (mem_delA hp)
            · intro p hp
              exact h.usersNonempty p (mem_delA hp)
            · intro p hp
              exact h.usersCap p (mem_delA hp)
            · intro p hp
              exact h.msgsBound p (mem_delA hp)
            · intro p hp q hq
              exact containsA_setA_of_containsA _ _
                (h.memberSession p (mem_delA hp) q hq)
            · intro p hp q hq st2 hst2 hcst2
              have hp2 := mem_delA_nodup h.roomsNodup hp
              by_cases hq1 : q.1 = sid
              · rw [hq1, lookupA_setA_self] at hst2
                injection hst2 with hst2
                rw [← hst2]
                rw [List.mem_filter]
                refine ⟨h.memberJoined p hp2.1 q hq st (hq1 ▸ hst) hc, ?_⟩
                simp [hp2.2]
              · rw [lookupA_setA_ne _ _ _ _ hq1] at hst2
                exact h.memberJoined p hp2.1 q hq st2 hst2 hcst2
          · rw [leaveRoom_eq_kept hst hc hroom hpart hempty]
            refine ⟨nodup_setA h.roomsNodup _ _, nodup_setA h.sessionsNodup _ _,
              ?_, ?_, ?_, ?_, ?_, ?_⟩
            · intro p hp
              rcases mem_setA_nodup h.roomsNodup hp with hp2 | hp2
              · subst hp2
                exact nodup_delA hund _
              · exact h.usersNodup p hp2.1
            · intro p hp
              rcases mem_setA_nodup h.roomsNodup hp with hp2 | hp2
              · subst hp2
                exact ne_nil_of_length_ne_zero hempty
              · exact h.usersNonempty p hp2.1
            · intro p hp
              rcases mem_setA_nodup h.roomsNodup hp with hp2 | hp2
              · subst hp2
                exact le_trans (length_delA_le _ _) (h.usersCap (roomId, room) hmem)
              · exact h.usersCap p hp2.1
            · intro p hp
              rcases mem_setA_nodup h.roomsNodup hp with hp2 | hp2
              · subst hp2
                exact h.msgsBound (roomId, room) hmem
              · exact h.msgsBound p hp2.1
            · intro p hp q hq
              rcases mem_setA_nodup h.roomsNodup hp with hp2 | hp2
              · subst hp2
                exact containsA_setA_of_containsA _ _
                  (h.memberSession (roomId, room) hmem q (mem_delA hq))
              · exact containsA_setA_of_containsA _ _ (h.memberSession p hp2.1 q hq)
            · intro p hp q hq st2 hst2 hcst2
              rcases mem_setA_nodup h.roomsNodup hp with hp2 | hp2
              · subst hp2
                have hq2 := mem_delA_nodup hund hq
                rw [lookupA_setA_ne _ _ _ _ hq2.2] at hst2
                exact h.memberJoined (roomId, room) hmem q hq2.1 st2 hst2 hcst2
              · by_cases hq1 : q.1 = sid
                · rw [hq1, lookupA_setA_self] at hst2
                  injection hst2 with hst2
                  rw [← hst2]
                  rw [List.mem_filter]
                  refine ⟨h.memberJoined p hp2.1 q hq st (hq1 ▸ hst) hc, ?_⟩
                  simp [hp2.2]
                · rw [lookupA_setA_ne _ _ _ _ hq1] at hst2
                  exact h.memberJoined p hp2.1 q hq st2 hst2 hcst2
    · unfold leaveRoom
      rw [hst]
      simp only [eq_false_of_not_eq_true hc, Bool.false_eq_true, if_false]
      exact h

theorem inv_disconnect {s : ServerState} (h : Inv s) (sid : String) :
    Inv (disconnect s sid).state := by
  cases hst : lookupA s.sessions sid with
  | none =>
    unfold disconnect
    rw [hst]
    exact h
  | some st =>
    by_cases hc : st.connected = true
    · have hsessNodup := nodup_setA h.sessionsNodup sid
        { st with connected := false, ioRooms := [] }
      have hmemJoined : ∀ rooms2 : List (String × Room),
          (∀ p ∈ rooms2, p ∈ s.rooms) →
          (∀ p ∈ rooms2, ∀ q ∈ p.2.users, ∀ st2,
            lookupA (setA s.sessions sid { st with connected := false, ioRooms := [] })
              q.1 = some st2 → st2.connected = true → p.1 ∈ st2.ioRooms) := by
        intro rooms2 hsub p hp q hq st2 hst2 hcst2
        by_cases hq1 : q.1 = sid
        · rw [hq1, lookupA_setA_self] at hst2
          injection hst2 with hst2
          rw [← hst2] at hcst2
          simp at hcst2
        · rw [lookupA_setA_ne _ _ _ _ hq1] at hst2
          exact h.memberJoined p (hsub p hp) q hq st2 hst2 hcst2
      have hmemSess : ∀ rooms2 : List (String × Room),
          (∀ p ∈ rooms2, p ∈ s.rooms) →
          (∀ p ∈ rooms2, ∀ q ∈ p.2.users,
            containsA (setA s.sessions sid
              { st with connected := false, ioRooms := [] }) q.1 = true) := by
        intro rooms2 hsub p hp q hq
        exact containsA_setA_of_containsA _ _ (h.memberSession p (hsub p hp) q hq)
      cases hb : st.roomId with
      | none =>
        rw [disconnect_eq_unbound hst hc hb]
        exact ⟨h.roomsNodup, hsessNodup, h.usersNodup, h.usersNonempty,
          h.usersCap, h.msgsBound, hmemSess s.rooms (fun p hp => hp),
          hmemJoined s.rooms (fun p hp => hp)⟩
      | some roomId =>
        cases hroom : lookupA s.rooms roomId with
        | none =>
          rw [disconnect_eq_stale hst hc hb hroom]
          exact ⟨h.roomsNodup, hsessNodup, h.usersNodup, h.usersNonempty,
            h.usersCap, h.msgsBound, hmemSess s.rooms (fun p hp => hp),
            hmemJoined s.rooms (fun p hp => hp)⟩
        | some room =>
          have hmem : (roomId, room) ∈ s.rooms := lookupA_some_mem hroom
          have hund : NoDupKeys room.users := h.usersNodup (roomId, room) hmem
          by_cases hempty : (delA room.users sid).length = 0
          · rw [disconnect_eq_deleted hst hc hb hroom hempty]
            refine ⟨nodup_delA h.roomsNodup _, hsessNodup, ?_, ?_, ?_, ?_,
              hmemSess _ (fun p hp => mem_delA hp),
              hmemJoined _ (fun p hp => mem_delA hp)⟩
            · intro p hp
              exact h.usersNodup p (mem_delA hp)
            · intro p hp
              exact h.usersNonempty p (mem_delA hp)
            · intro p hp
              exact h.usersCap p (mem_delA hp)
            · intro p hp
              exact h.msgsBound p (mem_delA hp)
          · rw [disconnect_eq_kept hst hc hb hroom hempty]
            refine ⟨nodup_setA h.roomsNodup _ _, hsessNodup, ?_, ?_, ?_, ?_, ?_, ?_⟩
            · intro p hp
              rcases mem_setA_nodup h.roomsNodup hp with hp2 | hp2
              · subst hp2
                exact nodup_delA hund _
              · exact h.usersNodup p hp2.1
            · intro p hp
              rcases mem_setA_nodup h.roomsNodup hp with hp2 | hp2
              · subst hp2
                exact ne_nil_of_length_ne_zero hempty
              · exact h.usersNonempty p hp2.1
            · intro p hp
              rcases mem_setA_nodup h.roomsNodup hp with hp2 | hp2
              · subst hp2
                exact le_trans (length_delA_le _ _) (h.usersCap (roomId, room) hmem)
              · exact h.usersCap p hp2.1
            · intro p hp
              rcases mem_setA_nodup h.roomsNodup hp with hp2 | hp2
              · subst hp2
                exact h.msgsBound (roomId, room) hmem
              · exact h.msgsBound p hp2.1
            · intro p hp q hq
              rcases mem_setA_nodup h.roomsNodup hp with hp2 | hp2
              · subst hp2
                exact containsA_setA_of_containsA _ _
                  (h.memberSession (roomId, room) hmem q (mem_delA hq))
              · exact containsA_setA_of_containsA _ _ (h.memberSession p hp2.1 q hq)
            · intro p hp q hq st2 hst2 hcst2
              by_cases hq1 : q.1 = sid
              · rw [hq1, lookupA_setA_self] at hst2
                injection hst2 with hst2
                rw [← hst2] at hcst2
                simp at hcst2
              · rw [lookupA_setA_ne _ _ _ _ hq1] at hst2
                rcases mem_setA_nodup h.roomsNodup hp with hp2 | hp2
                · subst hp2
                  have hq2 := mem_delA_nodup hund hq
                  exact h.memberJoined (roomId, room) hmem q hq2.1 st2 hst2 hcst2
                · exact h.memberJoined p hp2.1 q hq st2 hst2 hcst2
    · unfold disconnect
      rw [hst]
      simp only [eq_false_of_not_eq_true hc, Bool.false_eq_true, if_false]
      exact h

/-- Preservation of the invariant by every operation. -/
theorem inv_step {s : ServerState} (h : Inv s) (op : Op) : Inv (step s op) := by
  cases op with
  | connect sid => exact inv_connect h sid
  | createRoom sid uuid now => exact inv_createRoom h sid uuid now
  | joinRoom sid roomId now => exact inv_joinRoom h sid roomId now
  | sendTranscript sid roomId text confidence now =>
    exact inv_sendTranscript h sid roomId text confidence now
  | leaveRoom sid roomId => exact inv_leaveRoom h sid roomId
  | disconnect sid => exact inv_disconnect h sid

theorem inv_run {s : ServerState} (h : Inv s) (ops : List Op) : Inv (run s ops) := by
  induction ops generalizing s with
  | nil => exact h
  | cons op ops ih => exact ih (inv_step h op)

/-- Every state reachable from the fresh server satisfies the invariant. -/
theorem inv_reachable (ops : List Op) : Inv (run initState ops) :=
  inv_run inv_initState ops

theorem foldl_pushTrim_no_trim (ms : List Message) :
    ∀ l : List Message, l.length + ms.length ≤ 100 →
      List.foldl pushTrim l ms = l ++ ms := by
  induction ms with
  | nil =>
    intro l h
    simp
  | cons m ms ih =>
    intro l h
    simp only [List.length_cons] at h
    simp only [List.foldl_cons]
    have hp : pushTrim l m = l ++ [m] := by
      rw [pushTrim_eq, if_neg]
      simp only [List.length_append, List.length_cons, List.length_nil]
      omega
    rw [hp, ih (l ++ [m]) (by
      simp only [List.length_append, List.length_cons, List.length_nil]
      omega)]
    simp

theorem foldl_pushTrim_of_length_101 (ms : List Message) (h : ms.length = 101) :
    List.foldl pushTrim [] ms = ms.tail := by
  have hsplit : ms.take 100 ++ ms.drop 100 = ms := List.take_append_drop 100 ms
  have hlen_take : (ms.take 100).length = 100 := by
    rw [List.length_take]
    omega
  have hlen_drop : (ms.drop 100).length = 1 := by
    rw [List.length_drop]
    omega
  obtain ⟨m, hm⟩ : ∃ m, ms.drop 100 = [m] := by
    cases hd : ms.drop 100 with
    | nil =>
      rw [hd] at hlen_drop
      simp at hlen_drop
    | cons a t =>
      rw [hd] at hlen_drop
      simp only [List.length_cons] at hlen_drop
      have ht : t.length = 0 := by omega
      rw [List.length_eq_zero] at ht
      exact ⟨a, by rw [ht]⟩
  have hms : ms = ms.take 100 ++ [m] := by
    rw [← hm, hsplit]
  conv_lhs => rw [hms]
  rw [List.foldl_append,
    foldl_pushTrim_no_trim (ms.take 100) [] (by simp [hlen_take])]
  simp only [List.nil_append, List.foldl_cons, List.foldl_nil]
  rw [pushTrim_eq, if_pos (by
    simp only [List.length_append, List.length_cons, List.length_nil, hlen_take]
    omega)]
  rw [← hms]

theorem run_sendSeq (sid rid : String) (st : SessionState)
    (items : List (String × String × Nat)) :
    ∀ (s : ServerState) (room : Room) (part : Participant),
    lookupA s.sessions sid = some st → st.connected = true →
    lookupA s.rooms rid = some room → room.users = [(sid, part)] →
    ∃ room2 part2,
      lookupA (run s (sendSeq sid rid items)).rooms rid = some room2 ∧
      room2.users = [(sid, part2)] ∧
      room2.messages =
        List.foldl pushTrim room.messages (items.map (mkMessage sid)) ∧
      (run s (sendSeq sid rid items)).sessions = s.sessions := by
  induction items with
  | nil =>
    intro s room part hst hc hroom husers
    exact ⟨room, part, hroom, husers, by simp [sendSeq, run], by simp [sendSeq, run]⟩
  | cons it items ih =>
    intro s room part hst hc hroom husers
    have hpart : lookupA room.users sid = some part := by
      rw [husers]
      simp [lookupA]
    have hstep : sendSeq sid rid (it :: items) =
        Op.sendTranscript sid rid it.1 it.2.1 it.2.2 :: sendSeq sid rid items := by
      simp [sendSeq]
    rw [hstep]
    have hrun : run s (Op.sendTranscript sid rid it.1 it.2.1 it.2.2
        :: sendSeq sid rid items) =
        run (sendTranscript s sid rid it.1 it.2.1 it.2.2).state
          (sendSeq sid rid items) := rfl
    rw [hrun, sendTranscript_eq_member it.1 it.2.1 it.2.2 hst hc hroom hpart]
    have husers2 : (setA room.users sid { part with lastActive := it.2.2 })
        = [(sid, { part with lastActive := it.2.2 })] := by
      rw [husers]
      simp [setA]
    obtain ⟨room3, part3, h1, h2, h3, h4⟩ := ih
      ⟨setA s.rooms rid
        { room with
            messages := pushTrim room.messages ⟨sid, it.1, it.2.1, it.2.2⟩,
            users := setA room.users sid { part with lastActive := it.2.2 } },
        s.sessions⟩
      { room with
          messages := pushTrim room.messages ⟨sid, it.1, it.2.1, it.2.2⟩,
          users := setA room.users sid { part with lastActive := it.2.2 } }
      { part with lastActive := it.2.2 }
      hst hc (lookupA_setA_self _ _ _) husers2
    refine ⟨room3, part3, h1, h2, ?_, h4⟩
    rw [h3]
    simp [mkMessage]

theorem roomCount_eq_of_lookupA {s : ServerState} {rid : String} {room : Room}
    (h : lookupA s.rooms rid = some room) : roomCount s rid = room.users.length := by
  simp only [roomCount, h]

theorem roomCount_eq_zero_of_lookupA_none {s : ServerState} {rid : String}
    (h : lookupA s.rooms rid = none) : roomCount s rid = 0 := by
  simp only [roomCount, h]

theorem roomCount_joinRoom (s : ServerState) (sid rid : String) (now : Nat) :
    (roomCount (joinRoom s sid rid now).state rid : Int) =
      roomCount s rid + (if effJoin s sid rid then 1 else 0) := by
  cases hst : lookupA s.sessions sid with
  | none =>
    unfold joinRoom
    rw [hst]
    simp [effJoin, hst]
  | some st =>
    by_cases hc : st.connected = true
    · cases hroom : lookupA s.rooms rid with
      | none =>
        rw [joinRoom_eq_notFound now hst hc hroom]
        simp [effJoin, hst, hroom]
      | some room =>
        by_cases hcap : room.users.length ≥ 10
        · rw [joinRoom_eq_full now hst hc hroom hcap]
          have hdec : decide (room.users.length < 10) = false := by
            simp only [decide_eq_false_iff_not]
            omega
          simp [effJoin, hst, hroom, hdec]
        · rw [joinRoom_eq_ok now hst hc hroom hcap]
          have hr : lookupA
              (setA s.rooms rid { room with users := setA room.users sid ⟨sid, now, now⟩ })
              rid = some { room with users := setA room.users sid ⟨sid, now, now⟩ } :=
            lookupA_setA_self _ _ _
          have hlen := length_setA room.users sid ⟨sid, now, now⟩
          have heff : effJoin s sid rid = !containsA room.users sid := by
            have hdec : decide (room.users.length < 10) = true := by
              simp only [decide_eq_true_eq]
              omega
            simp [effJoin, hst, hroom, hc, hdec]
          simp only [roomCount, hr, hroom, hlen, heff]
          rcases hcon : containsA room.users sid with _ | _
          · simp [hcon]
          · simp [hcon]
    · cases hroom : lookupA s.rooms rid with
      | none =>
        unfold joinRoom
        rw [hst]
        simp [eq_false_of_not_eq_true hc, effJoin, hst, hroom]
      | some room =>
        unfold joinRoom
        rw [hst]
        simp [eq_false_of_not_eq_true hc, effJoin, hst, hroom]

theorem roomCount_leaveRoom {s : ServerState} (h : Inv s) (sid rid : String) :
    (roomCount (leaveRoom s sid rid).state rid : Int) =
      roomCount s rid + (if effLeave s sid rid then -1 else 0) := by
  cases hst : lookupA s.sessions sid with
  | none =>
    unfold leaveRoom
    rw [hst]
    simp [effLeave, hst]
  | some st =>
    by_cases hc : st.connected = true
    · cases hroom : lookupA s.rooms rid with
      | none =>
        unfold leaveRoom
        rw [hst]
        simp [hc, hroom, effLeave, hst]
      | some room =>
        cases hpart : lookupA room.users sid with
        | none =>
          have hcon : containsA room.users sid = false := by
            rw [containsA, hpart]
            rfl
          unfold leaveRoom
          rw [hst]
          simp [hc, hroom, hpart, effLeave, hst, hcon]
        | some part =>
          have hcon : containsA room.users sid = true := containsA_of_lookupA_some hpart
          have heff : effLeave s sid rid = true := by
            simp [effLeave, hst, hroom, hc, hcon]
          have hlen : 1 ≤ room.users.length := containsA_length_pos hcon
          have hdel : (delA room.users sid).length = room.users.length - 1 := by
            rw [length_delA, if_pos hcon]
          by_cases hempty : (delA room.users sid).length = 0
          · rw [leaveRoom_eq_deleted hst hc hroom hpart hempty]
            have hr : lookupA (delA s.rooms rid) rid = none :=
              lookupA_delA_self h.roomsNodup rid
            simp only [roomCount, hr, hroom, heff, if_true]
            omega
          · rw [leaveRoom_eq_kept hst hc hroom hpart hempty]
            have hr : lookupA (setA s.rooms rid { room with users := delA room.users sid })
                rid = some { room with users := delA room.users sid } :=
              lookupA_setA_self _ _ _
            simp only [roomCount, hr, hroom, heff, if_true, hdel]
            omega
    · cases hroom : lookupA s.rooms rid with
      | none =>
        unfold leaveRoom
        rw [hst]
        simp [eq_false_of_not_eq_true hc, effLeave, hst, hroom]
      | some room =>
        unfold leaveRoom
        rw [hst]
        simp [eq_false_of_not_eq_true hc, effLeave, hst, hroom]

theorem roomCount_step_onRoom {s : ServerState} (h : Inv s) {rid : String} {op : Op}
    (hop : onRoom rid op = true) :
    (roomCount (step s op) rid : Int) = roomCount s rid + opDelta s rid op := by
  cases op with
  | connect sid => simp [onRoom] at hop
  | createRoom sid uuid now => simp [onRoom] at hop
  | sendTranscript sid roomId text confidence now => simp [onRoom] at hop
  | disconnect sid => simp [onRoom] at hop
  | joinRoom sid r now =>
    have hr : r = rid := by
      simpa [onRoom] using hop
    subst hr
    show (roomCount (joinRoom s sid r now).state r : Int) = _
    rw [roomCount_joinRoom]
    simp [opDelta]
  | leaveRoom sid r =>
    have hr : r = rid := by
      simpa [onRoom] using hop
    subst hr
    show (roomCount (leaveRoom s sid r).state r : Int) = _
    rw [roomCount_leaveRoom h]
    simp [opDelta]

theorem lastN_length_le {α : Type} (l : List α) (n : Nat) :
    (lastN l n).length ≤ n := by
  rw [lastN, List.length_drop]
  omega

theorem lastN_suffix {α : Type} (l : List α) (n : Nat) :
    (lastN l n).IsSuffix l :=
  ⟨l.take (l.length - n), List.take_append_drop _ l⟩

theorem sender_not_mem_broadcastTargets (s : ServerState) (rid sender : String) :
    sender ∉ broadcastTargets s rid sender := by
  intro hmem
  rw [broadcastTargets] at hmem
  rcases List.mem_map.1 hmem with ⟨p, hp, hfst⟩
  rcases List.mem_filter.1 hp with ⟨_, hcond⟩
  rw [decide_eq_true_eq] at hcond
  exact hcond.2.2 hfst

theorem mem_broadcastTargets {s : ServerState} {rid sender x : String}
    {st : SessionState} (hmem : (x, st) ∈ s.sessions) (hc : st.connected = true)
    (hio : rid ∈ st.ioRooms) (hne : x ≠ sender) :
    x ∈ broadcastTargets s rid sender := by
  rw [broadcastTargets]
  refine List.mem_map.2 ⟨(x, st), List.mem_filter.2 ⟨hmem, ?_⟩, rfl⟩
  rw [decide_eq_true_eq]
  exact ⟨hc, hio, hne⟩

/-- Claim C6: a `sendTranscript` event whose sender is not a current member
of the named room (including when the room does not exist) produces no
broadcast and no mutation of any state: the whole server state is returned
unchanged and the emitted event list is empty. -/
theorem claim6_nonmember_noop (s : ServerState) (sid roomId text confidence : String)
    (now : Nat) (h : memberOf s roomId sid = false) :
    sendTranscript s sid roomId text confidence now = ⟨s, [], ()⟩ := by
  unfold sendTranscript
  cases hst : lookupA s.sessions sid with
  | none => rfl
  | some st =>
    by_cases hc : st.connected = true
    · cases hroom : lookupA s.rooms roomId with
      | none => simp [hc, hroom]
      | some room =>
        cases hpart : lookupA room.users sid with
        | none => simp [hc, hroom, hpart]
        | some part =>
          exfalso
          simp only [memberOf, hroom, containsA, hpart, Option.isSome_some] at h
          cases h
    · simp [eq_false_of_not_eq_true hc]

theorem claim6_nonmember_noop_witness :
    memberOf initState "aaaaaa" "A" = false ∧
    sendTranscript initState "A" "aaaaaa" "hi" "c1" 3 = ⟨initState, [], ()⟩ :=
  ⟨by decide, claim6_nonmember_noop initState "A" "aaaaaa" "hi" "c1" 3 (by decide)⟩

/-- Claim C9: `createRoom` never fails for a connected session: it replies
with success and a 6-character room identifier, and afterwards the registry
contains, under that identifier, a room whose sole participant is the
requesting session and whose transcript is empty.  The identifier length
requires the generated uuid to have at least 6 characters (uuidv4 yields
36). -/
theorem claim9_create_room (s : ServerState) (sid uuid : String) (now : Nat)
    (st : SessionState) (hst : lookupA s.sessions sid = some st)
    (hc : st.connected = true) (hlen : 6 ≤ uuid.length) :
    (createRoom s sid uuid now).reply = some ⟨true, substr6 uuid⟩ ∧
    (substr6 uuid).length = 6 ∧
    lookupA (createRoom s sid uuid now).state.rooms (substr6 uuid) =
      some ⟨substr6 uuid, [(sid, ⟨sid, now, now⟩)], now, []⟩ ∧
    (createRoom s sid uuid now).events = [] := by
  rw [createRoom_eq uuid now hst hc]
  refine ⟨rfl, ?_, lookupA_setA_self _ _ _, rfl⟩
  show (uuid.data.take 6).length = 6
  rw [List.length_take, Nat.min_eq_left]
  exact hlen

theorem claim9_create_room_witness :
    lookupA (connect initState "A").sessions "A" = some ⟨none, [], true⟩ ∧
    6 ≤ ("abcdef" : String).length ∧
    ((createRoom (connect initState "A") "A" "abcdef" 0).reply =
        some ⟨true, substr6 "abcdef"⟩ ∧
      (substr6 "abcdef").length = 6 ∧
      lookupA (createRoom (connect initState "A") "A" "abcdef" 0).state.rooms
          (substr6 "abcdef") =
        some ⟨substr6 "abcdef", [("A", ⟨"A", 0, 0⟩)], 0, []⟩ ∧
      (createRoom (connect initState "A") "A" "abcdef" 0).events = []) :=
  ⟨by decide, by decide,
    claim9_create_room (connect initState "A") "A" "abcdef" 0 ⟨none, [], true⟩
      (by decide) (by decide) (by decide)⟩

/-- Claim C10: when `joinRoom` fails (room not found, or room full) the
operation is atomic: the handler output carries the untouched server state
(registry, memberships and session bindings identical) and an empty event
list, together with the error reply. -/
theorem claim10_join_failure_atomic (s : ServerState) (sid roomId : String)
    (now : Nat) (st : SessionState) (hst : lookupA s.sessions sid = some st)
    (hc : st.connected = true) :
    (lookupA s.rooms roomId = none →
      joinRoom s sid roomId now = ⟨s, [], some JoinReply.notFound⟩) ∧
    (∀ room, lookupA s.rooms roomId = some room → room.users.length ≥ 10 →
      joinRoom s sid roomId now = ⟨s, [], some JoinReply.full⟩) :=
  ⟨fun hroom => joinRoom_eq_notFound now hst hc hroom,
   fun _ hroom hcap => joinRoom_eq_full now hst hc hroom hcap⟩

theorem claim10_join_failure_atomic_witness :
    lookupA (connect initState "A").sessions "A" = some ⟨none, [], true⟩ ∧
    lookupA (connect initState "A").rooms "zzzzzz" = none ∧
    joinRoom (connect initState "A") "A" "zzzzzz" 1 =
      ⟨connect initState "A", [], some JoinReply.notFound⟩ :=
  ⟨by decide, by decide,
    (claim10_join_failure_atomic (connect initState "A") "A" "zzzzzz" 1
      ⟨none, [], true⟩ (by decide) (by decide)).1 (by decide)⟩

/-- Claim C1: for every room and every sequence of operations, the
transcript length never exceeds 100 entries; and after 101 appends to a
fresh room (created by a connected session and then sent 101 transcript
messages by that session) the transcript is exactly the 2nd through 101st
appended messages in their original append order — the first appended
message no longer occupies any position, and the length is 100. -/
theorem claim1_transcript_bound :
    (∀ ops rid room, lookupA (run initState ops).rooms rid = some room →
      room.messages.length ≤ 100) ∧
    (∀ (s : ServerState) (sid uuid : String) (st : SessionState) (now : Nat)
       (items : List (String × String × Nat)),
      lookupA s.sessions sid = some st → st.connected = true →
      items.length = 101 →
      ∃ room2 part2,
        lookupA (run (createRoom s sid uuid now).state
            (sendSeq sid (substr6 uuid) items)).rooms (substr6 uuid) = some room2 ∧
        room2.users = [(sid, part2)] ∧
        room2.messages = (items.map (mkMessage sid)).tail ∧
        room2.messages.length = 100) := by
  constructor
  · intro ops rid room hroom
    exact (inv_reachable ops).msgsBound (rid, room) (lookupA_some_mem hroom)
  · intro s sid uuid st now items hst hc hlen
    rw [createRoom_eq uuid now hst hc]
    obtain ⟨room2, part2, h1, h2, h3, _⟩ := run_sendSeq sid (substr6 uuid)
      { st with roomId := some (substr6 uuid),
                ioRooms := socketJoin st.ioRooms (substr6 uuid) }
      items
      ⟨setA s.rooms (substr6 uuid)
          ⟨substr6 uuid, [(sid, ⟨sid, now, now⟩)], now, []⟩,
        setA s.sessions sid
          { st with roomId := some (substr6 uuid),
                    ioRooms := socketJoin st.ioRooms (substr6 uuid) }⟩
      ⟨substr6 uuid, [(sid, ⟨sid, now, now⟩)], now, []⟩ ⟨sid, now, now⟩
      (lookupA_setA_self _ _ _) hc (lookupA_setA_self _ _ _) rfl
    have hmsgs : room2.messages = (items.map (mkMessage sid)).tail := by
      rw [h3]
      show List.foldl pushTrim [] (items.map (mkMessage sid)) = _
      exact foldl_pushTrim_of_length_101 _ (by simp [hlen])
    refine ⟨room2, part2, h1, h2, hmsgs, ?_⟩
    rw [hmsgs, List.length_tail, List.length_map, hlen]

theorem claim1_transcript_bound_witness :
    (lookupA (connect initState "A").sessions "A" = some ⟨none, [], true⟩ ∧
      (List.replicate 101 (("t", "c9", 5) : String × String × Nat)).length = 101) ∧
    (∃ room2 part2,
      lookupA (run (createRoom (connect initState "A") "A" "abcdef" 0).state
          (sendSeq "A" (substr6 "abcdef")
            (List.replicate 101 (("t", "c9", 5) : String × String × Nat)))).rooms
        (substr6 "abcdef") = some room2 ∧
      room2.users = [("A", part2)] ∧
      room2.messages =
        ((List.replicate 101 (("t", "c9", 5) : String × String × Nat)).map
          (mkMessage "A")).tail ∧
      room2.messages.length = 100) :=
  ⟨⟨by decide, by simp⟩,
    claim1_transcript_bound.2 (connect initState "A") "A" "abcdef" ⟨none, [], true⟩ 0
      (List.replicate 101 (("t", "c9", 5) : String × String × Nat))
      (by decide) (by decide) (by simp)⟩

/-- Claim C2: a room with zero participants never persists in the registry:
every registered room of every reachable state has a nonempty participant
map; and immediately after the leave, or the disconnect, that removes a
room's last participant, looking the room up fails and any subsequent
joinRoom by a connected session replies RoomNotFound. -/
theorem claim2_empty_room_deleted :
    (∀ ops, ∀ p ∈ (run initState ops).rooms, p.2.users ≠ []) ∧
    (∀ (s : ServerState) (sid rid : String) (st : SessionState) (room : Room)
       (part : Participant),
      Inv s → lookupA s.sessions sid = some st → st.connected = true →
      lookupA s.rooms rid = some room → room.users = [(sid, part)] →
      lookupA (leaveRoom s sid rid).state.rooms rid = none ∧
      (∀ sid2 st2 now,
        lookupA (leaveRoom s sid rid).state.sessions sid2 = some st2 →
        st2.connected = true →
        (joinRoom (leaveRoom s sid rid).state sid2 rid now).reply =
          some JoinReply.notFound)) ∧
    (∀ (s : ServerState) (sid rid : String) (st : SessionState) (room : Room)
       (part : Participant),
      Inv s → lookupA s.sessions sid = some st → st.connected = true →
      st.roomId = some rid →
      lookupA s.rooms rid = some room → room.users = [(sid, part)] →
      lookupA (disconnect s sid).state.rooms rid = none ∧
      (∀ sid2 st2 now,
        lookupA (disconnect s sid).state.sessions sid2 = some st2 →
        st2.connected = true →
        (joinRoom (disconnect s sid).state sid2 rid now).reply =
          some JoinReply.notFound)) := by
  refine ⟨?_, ?_, ?_⟩
  · intro ops p hp
    exact (inv_reachable ops).usersNonempty p hp
  · intro s sid rid st room part h hst hc hroom husers
    have hpart : lookupA room.users sid = some part := by
      rw [husers]
      simp [lookupA]
    have hempty : (delA room.users sid).length = 0 := by
      rw [husers]
      simp [delA]
    rw [leaveRoom_eq_deleted hst hc hroom hpart hempty]
    have hnone : lookupA (delA s.rooms rid) rid = none :=
      lookupA_delA_self h.roomsNodup rid
    refine ⟨hnone, ?_⟩
    intro sid2 st2 now hs2 hc2
    rw [joinRoom_eq_notFound now hs2 hc2 hnone]
  · intro s sid rid st room part h hst hc hb hroom husers
    have hempty : (delA room.users sid).length = 0 := by
      rw [husers]
      simp [delA]
    rw [disconnect_eq_deleted hst hc hb hroom hempty]
    have hnone : lookupA (delA s.rooms rid) rid = none :=
      lookupA_delA_self h.roomsNodup rid
    refine ⟨hnone, ?_⟩
    intro sid2 st2 now hs2 hc2
    rw [joinRoom_eq_notFound now hs2 hc2 hnone]

theorem claim2_empty_room_deleted_witness :
    (lookupA (leaveRoom (run initState traceOneRoom) "A" "aaaaaa").state.rooms
        "aaaaaa" = none) ∧
    (lookupA (disconnect (run initState traceOneRoom) "A").state.rooms
        "aaaaaa" = none) :=
  ⟨(claim2_empty_room_deleted.2.1 (run initState traceOneRoom) "A" "aaaaaa"
      ⟨some "aaaaaa", ["aaaaaa"], true⟩ ⟨"aaaaaa", [("A", ⟨"A", 0, 0⟩)], 0, []⟩
      ⟨"A", 0, 0⟩ (inv_reachable traceOneRoom) (by decide) (by decide) (by decide)
      (by decide)).1,
   (claim2_empty_room_deleted.2.2 (run initState traceOneRoom) "A" "aaaaaa"
      ⟨some "aaaaaa", ["aaaaaa"], true⟩ ⟨"aaaaaa", [("A", ⟨"A", 0, 0⟩)], 0, []⟩
      ⟨"A", 0, 0⟩ (inv_reachable traceOneRoom) (by decide) (by decide) (by decide)
      (by decide) (by decide)).1⟩

/-- Counterexample to claim C3 as stated: with room aaaaaa at exactly 9
participants, a join by session s9 — already one of the 9 — succeeds (the
handler's `Map.set` overwrites in place) but the count stays at 9 instead of
being brought to 10. -/
theorem claim3_roomfull_counterexample :
    roomCount (run initState traceNine) "aaaaaa" = 9 ∧
    (joinRoom (run initState traceNine) "s9" "aaaaaa" 9).reply =
      some (JoinReply.ok 9 []) ∧
    roomCount (joinRoom (run initState traceNine) "s9" "aaaaaa" 9).state
      "aaaaaa" = 9 :=
  ⟨by decide, by decide, by decide⟩

/-- Claim C3 (amended): for an existing room, `joinRoom` replies RoomFull
exactly when the participant count is at least 10; a join by a connected
session NOT already in the room while it has 9 participants succeeds and
brings the count to 10 (a rejoin by an existing participant succeeds but
leaves the count unchanged); and no reachable room ever has more than 10
participants. -/
theorem claim3_roomfull_amended (s : ServerState) (sid rid : String) (now : Nat)
    (st : SessionState) (room : Room)
    (hst : lookupA s.sessions sid = some st) (hc : st.connected = true)
    (hroom : lookupA s.rooms rid = some room) :
    ((joinRoom s sid rid now).reply = some JoinReply.full ↔
      room.users.length ≥ 10) ∧
    (room.users.length = 9 → containsA room.users sid = false →
      (joinRoom s sid rid now).reply =
        some (JoinReply.ok 10 (lastN room.messages 50)) ∧
      roomCount (joinRoom s sid rid now).state rid = 10) ∧
    (∀ ops, ∀ p ∈ (run initState ops).rooms, p.2.users.length ≤ 10) := by
  refine ⟨⟨?_, ?_⟩, ?_, ?_⟩
  · intro hrep
    by_contra hcap
    rw [joinRoom_eq_ok now hst hc hroom hcap] at hrep
    simp at hrep
  · intro hcap
    rw [joinRoom_eq_full now hst hc hroom hcap]
  · intro h9 hnc
    have hcap : ¬room.users.length ≥ 10 := by omega
    rw [joinRoom_eq_ok now hst hc hroom hcap]
    have hlen : (setA room.users sid ⟨sid, now, now⟩).length = 10 := by
      rw [length_setA, if_neg (by simp [hnc])]
      omega
    refine ⟨by simp only [hlen], ?_⟩
    show roomCount
      (⟨setA s.rooms rid { room with users := setA room.users sid ⟨sid, now, now⟩ },
        setA s.sessions sid
          { st with roomId := some rid,
                    ioRooms := socketJoin st.ioRooms rid }⟩ : ServerState) rid = 10
    simp only [roomCount, lookupA_setA_self]
    exact hlen
  · intro ops p hp
    exact (inv_reachable ops).usersCap p hp

theorem claim3_roomfull_amended_witness :
    (joinRoom (run initState (traceNine ++ [Op.connect "sX"])) "sX" "aaaaaa" 7).reply =
      some (JoinReply.ok 10 []) ∧
    roomCount
      (joinRoom (run initState (traceNine ++ [Op.connect "sX"])) "sX" "aaaaaa" 7).state
      "aaaaaa" = 10 := by
  exact (claim3_roomfull_amended (run initState (traceNine ++ [Op.connect "sX"]))
    "sX" "aaaaaa" 7 ⟨none, [], true⟩
    ⟨"aaaaaa",
      [("s1", ⟨"s1", 0, 0⟩), ("s2", ⟨"s2", 0, 0⟩), ("s3", ⟨"s3", 0, 0⟩),
       ("s4", ⟨"s4", 0, 0⟩), ("s5", ⟨"s5", 0, 0⟩), ("s6", ⟨"s6", 0, 0⟩),
       ("s7", ⟨"s7", 0, 0⟩), ("s8", ⟨"s8", 0, 0⟩), ("s9", ⟨"s9", 0, 0⟩)], 0, []⟩
    (by decide) (by decide) (by decide)).2.1 (by decide) (by decide)

/-- Counterexample to claim C4 as stated: session A creates room aaaaaa,
then joins room bbbbbb (the source rebinding `socket.roomId` without any
leave), then disconnects.  After the disconnect completes, room aaaaaa
still records A as a participant. -/
theorem claim4_disconnect_counterexample :
    memberOf (run initState traceGhost) "aaaaaa" "A" = true ∧
    lookupA (run initState traceGhost).sessions "A" =
      some ⟨some "bbbbbb", [], false⟩ :=
  ⟨by decide, by decide⟩

/-- Claim C4 (amended): a session carries a single optional room binding,
and when it disconnects it is removed from the room it is currently bound
to — afterwards that room is either gone from the registry or no longer
records the session; rooms the session abandoned earlier by rebinding may
still record it. -/
theorem claim4_disconnect_amended (s : ServerState) (sid rid : String)
    (st : SessionState) (h : Inv s) (hst : lookupA s.sessions sid = some st)
    (hc : st.connected = true) (hb : st.roomId = some rid) :
    lookupA (disconnect s sid).state.rooms rid = none ∨
    ∃ room2, lookupA (disconnect s sid).state.rooms rid = some room2 ∧
      lookupA room2.users sid = none := by
  cases hroom : lookupA s.rooms rid with
  | none =>
    rw [disconnect_eq_stale hst hc hb hroom]
    exact Or.inl hroom
  | some room =>
    by_cases hempty : (delA room.users sid).length = 0
    · rw [disconnect_eq_deleted hst hc hb hroom hempty]
      exact Or.inl (lookupA_delA_self h.roomsNodup rid)
    · rw [disconnect_eq_kept hst hc hb hroom hempty]
      refine Or.inr ⟨{ room with users := delA room.users sid },
        lookupA_setA_self _ _ _, ?_⟩
      exact lookupA_delA_self (h.usersNodup (rid, room) (lookupA_some_mem hroom)) sid

theorem claim4_disconnect_amended_witness :
    lookupA (disconnect (run initState traceOneRoom) "A").state.rooms "aaaaaa"
        = none ∨
    ∃ room2,
      lookupA (disconnect (run initState traceOneRoom) "A").state.rooms "aaaaaa"
          = some room2 ∧
      lookupA room2.users "A" = none :=
  claim4_disconnect_amended (run initState traceOneRoom) "A" "aaaaaa"
    ⟨some "aaaaaa", ["aaaaaa"], true⟩ (inv_reachable traceOneRoom)
    (by decide) (by decide) (by decide)

/-- Counterexample to claim C5 as stated: room aaaaaa persists with the
disconnected ghost session A as its sole recorded participant; a fresh
session C joins successfully with userCount 2, but the userJoined event is
emitted to an empty recipient list, so it is not delivered to every other
participant of the room (A receives nothing). -/
theorem claim5_join_counterexample :
    memberOf (run initState traceGhostJoin) "aaaaaa" "A" = true ∧
    (joinRoom (run initState traceGhostJoin) "C" "aaaaaa" 7).reply =
      some (JoinReply.ok 2 []) ∧
    (joinRoom (run initState traceGhostJoin) "C" "aaaaaa" 7).events =
      [Event.userJoined [] "C" 2] ∧
    memberOf (joinRoom (run initState traceGhostJoin) "C" "aaaaaa" 7).state
      "aaaaaa" "A" = true :=
  ⟨by decide, by decide, by decide, by decide⟩

/-- Claim C5 (amended): on a successful joinRoom, the userCount in the
callback and the userCount in the userJoined broadcast both equal the
participant count of the room registered after the joiner was inserted
(never the pre-mutation count); the backfill is the last at-most-50
transcript messages in chronological order (a suffix of the transcript);
and the userJoined event is delivered to every other STILL-CONNECTED
participant of the room and never to the joiner — participants whose
sessions already disconnected (ghosts left by rebinding) receive nothing. -/
theorem claim5_join_outputs_amended (s : ServerState) (sid rid : String)
    (now : Nat) (st : SessionState) (room : Room) (h : Inv s)
    (hst : lookupA s.sessions sid = some st) (hc : st.connected = true)
    (hroom : lookupA s.rooms rid = some room)
    (hcap : ¬room.users.length ≥ 10) :
    ∃ targets room2,
      (joinRoom s sid rid now).reply =
        some (JoinReply.ok room2.users.length (lastN room.messages 50)) ∧
      lookupA (joinRoom s sid rid now).state.rooms rid = some room2 ∧
      room2.users = setA room.users sid ⟨sid, now, now⟩ ∧
      (joinRoom s sid rid now).events =
        [Event.userJoined targets sid room2.users.length] ∧
      (lastN room.messages 50).length ≤ 50 ∧
      (lastN room.messages 50).IsSuffix room.messages ∧
      sid ∉ targets ∧
      (∀ q ∈ room.users, q.1 ≠ sid → ∀ st2, lookupA s.sessions q.1 = some st2 →
        st2.connected = true → q.1 ∈ targets) := by
  rw [joinRoom_eq_ok now hst hc hroom hcap]
  refine ⟨broadcastTargets
      ⟨setA s.rooms rid { room with users := setA room.users sid ⟨sid, now, now⟩ },
        setA s.sessions sid
          { st with roomId := some rid, ioRooms := socketJoin st.ioRooms rid }⟩
      rid sid,
    { room with users := setA room.users sid ⟨sid, now, now⟩ },
    rfl, lookupA_setA_self _ _ _, rfl, rfl,
    lastN_length_le _ _, lastN_suffix _ _,
    sender_not_mem_broadcastTargets _ _ _, ?_⟩
  intro q hq hqne st2 hst2 hc2
  have hio : rid ∈ st2.ioRooms :=
    h.memberJoined (rid, room) (lookupA_some_mem hroom) q hq st2 hst2 hc2
  have hmem2 : (q.1, st2) ∈
      (setA s.sessions sid
        { st with roomId := some rid, ioRooms := socketJoin st.ioRooms rid }) :=
    lookupA_some_mem (by rw [lookupA_setA_ne _ _ _ _ hqne]; exact hst2)
  exact mem_broadcastTargets hmem2 hc2 hio hqne

theorem claim5_join_outputs_amended_witness :
    ∃ targets room2,
      (joinRoom (run initState [Op.connect "A", Op.createRoom "A" "aaaaaa" 0,
          Op.connect "B"]) "B" "aaaaaa" 3).reply =
        some (JoinReply.ok room2.users.length (lastN ([] : List Message) 50)) ∧
      lookupA (joinRoom (run initState [Op.connect "A", Op.createRoom "A" "aaaaaa" 0,
          Op.connect "B"]) "B" "aaaaaa" 3).state.rooms "aaaaaa" = some room2 ∧
      room2.users = setA [("A", ⟨"A", 0, 0⟩)] "B" ⟨"B", 3, 3⟩ ∧
      (joinRoom (run initState [Op.connect "A", Op.createRoom "A" "aaaaaa" 0,
          Op.connect "B"]) "B" "aaaaaa" 3).events =
        [Event.userJoined targets "B" room2.users.length] ∧
      (lastN ([] : List Message) 50).length ≤ 50 ∧
      (lastN ([] : List Message) 50).IsSuffix ([] : List Message) ∧
      "B" ∉ targets ∧
      (∀ q ∈ [("A", (⟨"A", 0, 0⟩ : Participant))], q.1 ≠ "B" →
        ∀ st2, lookupA (run initState [Op.connect "A",
          Op.createRoom "A" "aaaaaa" 0, Op.connect "B"]).sessions q.1 = some st2 →
        st2.connected = true → q.1 ∈ targets) := by
  exact claim5_join_outputs_amended
    (run initState [Op.connect "A", Op.createRoom "A" "aaaaaa" 0, Op.connect "B"])
    "B" "aaaaaa" 3 ⟨none, [], true⟩ ⟨"aaaaaa", [("A", ⟨"A", 0, 0⟩)], 0, []⟩
    (inv_reachable [Op.connect "A", Op.createRoom "A" "aaaaaa" 0, Op.connect "B"])
    (by decide) (by decide) (by decide) (by decide)

/-- Counterexample to claim C7 as stated: room aaaaaa records the
disconnected ghost A and the live member B; a transcript send by B appends
and is broadcast with an empty recipient list, so the message reaches no
other member even though A is recorded as one. -/
theorem claim7_transcript_counterexample :
    memberOf (run initState traceGhostSend) "aaaaaa" "A" = true ∧
    ("A" : String) ≠ "B" ∧
    (sendTranscript (run initState traceGhostSend) "B" "aaaaaa" "hello" "c9" 9).events
      = [Event.receiveTranscript [] ⟨"B", "hello", "c9", 9⟩] :=
  ⟨by decide, by decide, by decide⟩

/-- Claim C7 (amended): a sendTranscript from a current member appends a
message carrying the sender's id, the supplied text and confidence, and the
server-assigned receipt clock (rendered as ISO-8601 by the runtime's
Date.toISOString); it broadcasts exactly that message as receiveTranscript
to every other STILL-CONNECTED member of the room and never to the sender;
it refreshes the sender's lastActive and leaves every other participant's
record and all session state unchanged.  Members whose sessions already
disconnected receive nothing. -/
theorem claim7_transcript_send_amended (s : ServerState)
    (sid rid text confidence : String) (now : Nat)
    (st : SessionState) (room : Room) (part : Participant) (h : Inv s)
    (hst : lookupA s.sessions sid = some st) (hc : st.connected = true)
    (hroom : lookupA s.rooms rid = some room)
    (hpart : lookupA room.users sid = some part) :
    ∃ targets room2,
      lookupA (sendTranscript s sid rid text confidence now).state.rooms rid =
        some room2 ∧
      room2.messages = pushTrim room.messages ⟨sid, text, confidence, now⟩ ∧
      lookupA room2.users sid = some { part with lastActive := now } ∧
      (∀ q, q ≠ sid → lookupA room2.users q = lookupA room.users q) ∧
      (sendTranscript s sid rid text confidence now).state.sessions = s.sessions ∧
      (sendTranscript s sid rid text confidence now).events =
        [Event.receiveTranscript targets ⟨sid, text, confidence, now⟩] ∧
      sid ∉ targets ∧
      (∀ q ∈ room.users, q.1 ≠ sid → ∀ st2, lookupA s.sessions q.1 = some st2 →
        st2.connected = true → q.1 ∈ targets) := by
  rw [sendTranscript_eq_member text confidence now hst hc hroom hpart]
  refine ⟨broadcastTargets s rid sid,
    { room with
        messages := pushTrim room.messages ⟨sid, text, confidence, now⟩,
        users := setA room.users sid { part with lastActive := now } },
    lookupA_setA_self _ _ _, rfl, lookupA_setA_self _ _ _,
    ?_, rfl, rfl, sender_not_mem_broadcastTargets _ _ _, ?_⟩
  · intro q hqne
    exact lookupA_setA_ne _ _ _ _ hqne
  · intro q hq hqne st2 hst2 hc2
    have hio : rid ∈ st2.ioRooms :=
      h.memberJoined (rid, room) (lookupA_some_mem hroom) q hq st2 hst2 hc2
    exact mem_broadcastTargets (lookupA_some_mem hst2) hc2 hio hqne

theorem claim7_transcript_send_amended_witness :
    ∃ targets room2,
      lookupA (sendTranscript (run initState [Op.connect "A",
          Op.createRoom "A" "aaaaaa" 0, Op.connect "B", Op.joinRoom "B" "aaaaaa" 1])
          "A" "aaaaaa" "hello" "c9" 2).state.rooms "aaaaaa" = some room2 ∧
      room2.messages = pushTrim ([] : List Message) ⟨"A", "hello", "c9", 2⟩ ∧
      lookupA room2.users "A" = some ⟨"A", 0, 2⟩ ∧
      (∀ q, q ≠ "A" →
        lookupA room2.users q =
          lookupA (setA [("A", (⟨"A", 0, 0⟩ : Participant))] "B" ⟨"B", 1, 1⟩) q) ∧
      (sendTranscript (run initState [Op.connect "A",
          Op.createRoom "A" "aaaaaa" 0, Op.connect "B", Op.joinRoom "B" "aaaaaa" 1])
          "A" "aaaaaa" "hello" "c9" 2).state.sessions =
        (run initState [Op.connect "A", Op.createRoom "A" "aaaaaa" 0,
          Op.connect "B", Op.joinRoom "B" "aaaaaa" 1]).sessions ∧
      (sendTranscript (run initState [Op.connect "A",
          Op.createRoom "A" "aaaaaa" 0, Op.connect "B", Op.joinRoom "B" "aaaaaa" 1])
          "A" "aaaaaa" "hello" "c9" 2).events =
        [Event.receiveTranscript targets ⟨"A", "hello", "c9", 2⟩] ∧
      "A" ∉ targets ∧
      (∀ q ∈ setA [("A", (⟨"A", 0, 0⟩ : Participant))] "B" ⟨"B", 1, 1⟩,
        q.1 ≠ "A" → ∀ st2, lookupA (run initState [Op.connect "A",
          Op.createRoom "A" "aaaaaa" 0, Op.connect "B",
          Op.joinRoom "B" "aaaaaa" 1]).sessions q.1 = some st2 →
        st2.connected = true → q.1 ∈ targets) := by
  exact claim7_transcript_send_amended
    (run initState [Op.connect "A", Op.createRoom "A" "aaaaaa" 0, Op.connect "B",
      Op.joinRoom "B" "aaaaaa" 1])
    "A" "aaaaaa" "hello" "c9" 2 ⟨some "aaaaaa", ["aaaaaa"], true⟩
    ⟨"aaaaaa", setA [("A", ⟨"A", 0, 0⟩)] "B" ⟨"B", 1, 1⟩, 0, []⟩ ⟨"A", 0, 0⟩
    (inv_reachable [Op.connect "A", Op.createRoom "A" "aaaaaa" 0, Op.connect "B",
      Op.joinRoom "B" "aaaaaa" 1])
    (by decide) (by decide) (by decide) (by decide)

/-- Counterexample to claim C8 as stated: starting from room aaaaaa with its
creator A as sole participant (count 1), the single operation "A joins
aaaaaa again" is a successful join (count of successful joins 1, effective
leaves 0), yet the count afterwards is still 1, not 1 + 1 - 0 = 2: a
successful rejoin does not enlarge the room. -/
theorem claim8_net_count_counterexample :
    roomCount (run initState traceOneRoom) "aaaaaa" = 1 ∧
    specSuccessfulJoins (run initState traceOneRoom) "aaaaaa"
      [Op.joinRoom "A" "aaaaaa" 1] = 1 ∧
    specEffectiveLeaves (run initState traceOneRoom) "aaaaaa"
      [Op.joinRoom "A" "aaaaaa" 1] = 0 ∧
    roomCount (run (run initState traceOneRoom) [Op.joinRoom "A" "aaaaaa" 1])
      "aaaaaa" = 1 ∧
    (roomCount (run (run initState traceOneRoom) [Op.joinRoom "A" "aaaaaa" 1])
        "aaaaaa" : Int) ≠
      (roomCount (run initState traceOneRoom) "aaaaaa" : Int) +
        (specSuccessfulJoins (run initState traceOneRoom) "aaaaaa"
          [Op.joinRoom "A" "aaaaaa" 1] : Int) -
        (specEffectiveLeaves (run initState traceOneRoom) "aaaaaa"
          [Op.joinRoom "A" "aaaaaa" 1] : Int) :=
  ⟨by decide, by decide, by decide, by decide, by decide⟩

/-- Claim C8 (amended): for every sequence of join and leave operations
aimed at a room, the participant count after the sequence equals the count
before it plus the number of joins that actually added a participant (a
successful join by a session not already present) minus the number of
leaves that actually removed one; the count is a natural number, hence
never negative, and no reachable room ever records the same session twice
(`NoDupKeys` of its participant map). -/
theorem claim8_net_count_amended (ops : List Op) :
    ∀ (s : ServerState) (rid : String), Inv s →
      (∀ op ∈ ops, onRoom rid op = true) →
      (roomCount (run s ops) rid : Int) = roomCount s rid + netEff s rid ops ∧
      (∀ p ∈ (run s ops).rooms, NoDupKeys p.2.users) := by
  induction ops with
  | nil =>
    intro s rid h _
    exact ⟨by simp [run, netEff], h.usersNodup⟩
  | cons op ops ih =>
    intro s rid h hops
    have hop := hops op (List.mem_cons_self _ _)
    have hrun : run s (op :: ops) = run (step s op) ops := rfl
    have hnet : netEff s rid (op :: ops) =
        opDelta s rid op + netEff (step s op) rid ops := rfl
    obtain ⟨ih1, ih2⟩ := ih (step s op) rid (inv_step h op)
      (fun op2 hop2 => hops op2 (List.mem_cons_of_mem _ hop2))
    refine ⟨?_, by rw [hrun]; exact ih2⟩
    rw [hrun, hnet, ih1, roomCount_step_onRoom h hop]
    ring

theorem claim8_net_count_amended_witness :
    (∀ op ∈ [Op.joinRoom "B" "aaaaaa" 1], onRoom "aaaaaa" op = true) ∧
    ((roomCount (run (run initState (traceOneRoom ++ [Op.connect "B"]))
        [Op.joinRoom "B" "aaaaaa" 1]) "aaaaaa" : Int) =
      roomCount (run initState (traceOneRoom ++ [Op.connect "B"])) "aaaaaa" +
        netEff (run initState (traceOneRoom ++ [Op.connect "B"])) "aaaaaa"
          [Op.joinRoom "B" "aaaaaa" 1] ∧
      (∀ p ∈ (run (run initState (traceOneRoom ++ [Op.connect "B"]))
          [Op.joinRoom "B" "aaaaaa" 1]).rooms, NoDupKeys p.2.users)) :=
  ⟨by decide,
    claim8_net_count_amended [Op.joinRoom "B" "aaaaaa" 1]
      (run initState (traceOneRoom ++ [Op.connect "B"])) "aaaaaa"
      (inv_reachable (traceOneRoom ++ [Op.connect "B"])) (by decide)⟩

end SignRelay
